import Mathlib

/-!
Verification development for the takopi swarm subsystem: the JSONL inbox
tailer and ingress translator (`src/takopi/swarm/inbox.py`) and the topic
reconciliation service (`src/takopi/swarm/service.py`).

The Python code is shallowly embedded as executable Lean definitions.
File contents are modelled as lists of characters (the record delimiter
byte `\n` coincides with the newline character in UTF-8, and the JSON
encoder escapes all control characters, so no raw newline ever occurs
inside an encoded record).  The `msgspec` JSON codec used by the source
is modelled for the fragment of JSON the envelope schema touches:
objects whose values are integers, strings or null, with
`forbid_unknown_fields` semantics.
-/

namespace Takopi

set_option maxRecDepth 400000
/-! ## JSON field-name and string constants (after `:=` to keep literals
contained) -/

def kVersion : String := "version"
def kEventId : String := "event_id"
def kIntent : String := "intent"
def kChatId : String := "chat_id"
def kThreadId : String := "thread_id"
def kText : String := "text"
def kOriginAgent : String := "origin_agent"
def kCreatedAt : String := "created_at"
def sControl : String := "control"
def sTrigger : String := "trigger"
def sSwarm : String := "swarm"
def sTelegram : String := "telegram"

/-! ## Envelope data model (`SwarmEnvelope` in inbox.py) -/

inductive SwarmIntent where
  | control
  | trigger
deriving DecidableEq

def SwarmIntent.toStr : SwarmIntent → String
  | .control => sControl
  | .trigger => sTrigger

/-- `SwarmEnvelope(msgspec.Struct, kw_only=True, forbid_unknown_fields=True)`:
`version: int = 1`, `event_id: str`, `intent: SwarmIntent`, `chat_id: int`,
`thread_id: int | None = None`, `text: str`, `origin_agent: str | None = None`,
`created_at: str | None = None`. -/
structure SwarmEnvelope where
  version : Int := 1
  event_id : String
  intent : SwarmIntent
  chat_id : Int
  thread_id : Option Int := none
  text : String
  origin_agent : Option String := none
  created_at : Option String := none
deriving DecidableEq

/-! ## Structural JSON values

`JVal` covers the fragment of JSON the envelope schema uses for field
values: integers, strings and null.  An object is an ordered list of
key/value pairs, mirroring the order `msgspec.json.encode` emits. -/

inductive JVal where
  | null
  | int (n : Int)
  | str (s : String)
deriving DecidableEq

abbrev JObj := List (String × JVal)

def optIntVal : Option Int → JVal
  | none => .null
  | some n => .int n

def optStrVal : Option String → JVal
  | none => .null
  | some s => .str s

/-- Structural image of `msgspec.json.encode(envelope)`: all declared
fields in declaration order, `None` encoded as null. -/
def encodeEnvelope (e : SwarmEnvelope) : JObj :=
  [(kVersion, .int e.version),
   (kEventId, .str e.event_id),
   (kIntent, .str e.intent.toStr),
   (kChatId, .int e.chat_id),
   (kThreadId, optIntVal e.thread_id),
   (kText, .str e.text),
   (kOriginAgent, optStrVal e.origin_agent),
   (kCreatedAt, optStrVal e.created_at)]

/-- Decoder accumulator: presence flags for the required fields, defaults
for the optional ones (matching the struct's field defaults). -/
structure DecState where
  version : Int := 1
  event_id : Option String := none
  intent : Option SwarmIntent := none
  chat_id : Option Int := none
  thread_id : Option Int := none
  text : Option String := none
  origin_agent : Option String := none
  created_at : Option String := none

/-- One field of `msgspec.json.decode(..., type=SwarmEnvelope)` with
`forbid_unknown_fields=True`: a key outside the schema's known set is a
decode error; a null for a non-optional field is a decode error. -/
def decStep (st : DecState) (kv : String × JVal) : Option DecState :=
  if kv.1 = kVersion then
    match kv.2 with
    | .int n => some { st with version := n }
    | _ => none
  else if kv.1 = kEventId then
    match kv.2 with
    | .str s => some { st with event_id := some s }
    | _ => none
  else if kv.1 = kIntent then
    match kv.2 with
    | .str s =>
      if s = sControl then some { st with intent := some .control }
      else if s = sTrigger then some { st with intent := some .trigger }
      else none
    | _ => none
  else if kv.1 = kChatId then
    match kv.2 with
    | .int n => some { st with chat_id := some n }
    | _ => none
  else if kv.1 = kThreadId then
    match kv.2 with
    | .int n => some { st with thread_id := some n }
    | .null => some { st with thread_id := none }
    | _ => none
  else if kv.1 = kText then
    match kv.2 with
    | .str s => some { st with text := some s }
    | _ => none
  else if kv.1 = kOriginAgent then
    match kv.2 with
    | .str s => some { st with origin_agent := some s }
    | .null => some { st with origin_agent := none }
    | _ => none
  else if kv.1 = kCreatedAt then
    match kv.2 with
    | .str s => some { st with created_at := some s }
    | .null => some { st with created_at := none }
    | _ => none
  else none

def decFinish (st : DecState) : Option SwarmEnvelope :=
  match st.event_id, st.intent, st.chat_id, st.text with
  | some eid, some it, some cid, some txt =>
    some { version := st.version, event_id := eid, intent := it,
           chat_id := cid, thread_id := st.thread_id, text := txt,
           origin_agent := st.origin_agent, created_at := st.created_at }
  | _, _, _, _ => none

/-- Structural image of `msgspec.json.decode(raw, type=SwarmEnvelope)`
applied to an already-parsed object. -/
def decodeObj (obj : JObj) : Option SwarmEnvelope :=
  match obj.foldlM decStep {} with
  | some st => decFinish st
  | none => none

/-- The set of field names the current schema version knows. -/
def knownFields : List String :=
  [kVersion, kEventId, kIntent, kChatId, kThreadId, kText, kOriginAgent,
   kCreatedAt]

/-! ## Character-level JSON rendering (image of `msgspec.json.encode`) -/

def lbrace : Char := Char.ofNat 123
def rbrace : Char := Char.ofNat 125
def quoteChar : Char := Char.ofNat 34
def backslashChar : Char := Char.ofNat 92

def hexDigit (n : Nat) : Char :=
  if n < 10 then Char.ofNat (48 + n) else Char.ofNat (87 + n)

def digitChar (d : Nat) : Char := Char.ofNat (48 + d)

/-- JSON escaping of one character: `"` and `\` get a backslash escape,
the control characters with short forms use them, the remaining control
characters use `\u00XX`, and everything else is emitted raw. -/
def escapeChar (c : Char) : List Char :=
  if c = quoteChar then [backslashChar, quoteChar]
  else if c = backslashChar then [backslashChar, backslashChar]
  else if c.toNat = 8 then [backslashChar, 'b']
  else if c.toNat = 9 then [backslashChar, 't']
  else if c.toNat = 10 then [backslashChar, 'n']
  else if c.toNat = 12 then [backslashChar, 'f']
  else if c.toNat = 13 then [backslashChar, 'r']
  else if c.toNat < 32 then
    [backslashChar, 'u', '0', '0', hexDigit (c.toNat / 16),
     hexDigit (c.toNat % 16)]
  else [c]

def renderChars : List Char → List Char
  | [] => []
  | c :: cs => escapeChar c ++ renderChars cs

def renderString (s : String) : List Char :=
  quoteChar :: renderChars s.data ++ [quoteChar]

/-- Base-10 digits, least significant first, with explicit fuel so the
definition evaluates inside the kernel (`digitsFuel n n = Nat.digits 10 n`
whenever the fuel suffices). -/
def digitsFuel : Nat → Nat → List Nat
  | 0, _ => []
  | fuel + 1, n => if n = 0 then [] else n % 10 :: digitsFuel fuel (n / 10)

/-- Decimal rendering of a natural number, most significant digit first. -/
def renderNat (n : Nat) : List Char :=
  if n = 0 then ['0'] else ((digitsFuel n n).map digitChar).reverse

def renderInt (n : Int) : List Char :=
  if n < 0 then '-' :: renderNat n.natAbs else renderNat n.natAbs

def renderJVal : JVal → List Char
  | .null => ['n', 'u', 'l', 'l']
  | .int n => renderInt n
  | .str s => renderString s

def renderField (kv : String × JVal) : List Char :=
  renderString kv.1 ++ ':' :: renderJVal kv.2

def renderFields : JObj → List Char
  | [] => []
  | [kv] => renderField kv
  | kv :: rest => renderField kv ++ ',' :: renderFields rest

/-- Character-level image of `msgspec.json.encode(envelope)` for an
already-structured object. -/
def renderLine (obj : JObj) : List Char :=
  lbrace :: renderFields obj ++ [rbrace]

/-- `msgspec.json.encode(envelope)`, the serialized bytes of one record
(without the trailing `\n` that `append_swarm_envelope` adds). -/
def encodeEnvelopeChars (e : SwarmEnvelope) : List Char :=
  renderLine (encodeEnvelope e)

/-! ## Character-level JSON parsing (image of `msgspec.json.decode`'s
textual layer, for the JSON fragment described above) -/

def isJsonWs (c : Char) : Bool :=
  c = ' ' || c = '\t' || c = '\n' || c = '\r'

def skipWs (l : List Char) : List Char := l.dropWhile isJsonWs

def isDigitChar (c : Char) : Bool := 48 ≤ c.toNat && c.toNat ≤ 57

def hexVal (c : Char) : Option Nat :=
  if 48 ≤ c.toNat ∧ c.toNat ≤ 57 then some (c.toNat - 48)
  else if 97 ≤ c.toNat ∧ c.toNat ≤ 102 then some (c.toNat - 87)
  else if 65 ≤ c.toNat ∧ c.toNat ≤ 70 then some (c.toNat - 55)
  else none

def unescape (c : Char) : Option Char :=
  if c = quoteChar then some quoteChar
  else if c = backslashChar then some backslashChar
  else if c = '/' then some '/'
  else if c = 'b' then some (Char.ofNat 8)
  else if c = 't' then some (Char.ofNat 9)
  else if c = 'n' then some (Char.ofNat 10)
  else if c = 'f' then some (Char.ofNat 12)
  else if c = 'r' then some (Char.ofNat 13)
  else none

/-- Parse the body of a JSON string literal (after the opening quote),
returning the decoded characters and the input after the closing quote. -/
def parseStringBody : List Char → Option (List Char × List Char)
  | [] => none
  | c :: rest =>
    if c = quoteChar then some ([], rest)
    else if c = backslashChar then
      match rest with
      | [] => none
      | e :: rest2 =>
        if e = 'u' then
          match rest2 with
          | h1 :: h2 :: h3 :: h4 :: rest3 =>
            match hexVal h1, hexVal h2, hexVal h3, hexVal h4 with
            | some a, some b, some c2, some d =>
              match parseStringBody rest3 with
              | some (cs, rem) =>
                some (Char.ofNat (((a * 16 + b) * 16 + c2) * 16 + d) :: cs,
                      rem)
              | none => none
            | _, _, _, _ => none
          | _ => none
        else
          match unescape e with
          | some u =>
            match parseStringBody rest2 with
            | some (cs, rem) => some (u :: cs, rem)
            | none => none
          | none => none
    else if c.toNat < 32 then none
    else
      match parseStringBody rest with
      | some (cs, rem) => some (c :: cs, rem)
      | none => none

/-- Maximal-munch decimal digits, folded into an accumulator. -/
def parseDigitsAux : List Char → Nat → Nat × List Char
  | [], acc => (acc, [])
  | c :: rest, acc =>
    if isDigitChar c then parseDigitsAux rest (acc * 10 + (c.toNat - 48))
    else (acc, c :: rest)

def parseDigits : List Char → Option (Nat × List Char)
  | [] => none
  | c :: rest =>
    if isDigitChar c then some (parseDigitsAux rest (c.toNat - 48))
    else none

def parseInt : List Char → Option (Int × List Char)
  | [] => none
  | c :: rest =>
    if c = '-' then
      match parseDigits rest with
      | some (n, rem) => some (-(n : Int), rem)
      | none => none
    else
      match parseDigits (c :: rest) with
      | some (n, rem) => some ((n : Int), rem)
      | none => none

def parseJVal (l : List Char) : Option (JVal × List Char) :=
  match l with
  | [] => none
  | c :: rest =>
    if c = quoteChar then
      match parseStringBody rest with
      | some (cs, rem) => some (.str (String.mk cs), rem)
      | none => none
    else if c = 'n' then
      match rest with
      | 'u' :: 'l' :: 'l' :: rem => some (.null, rem)
      | _ => none
    else if c = '-' || isDigitChar c then
      match parseInt (c :: rest) with
      | some (n, rem) => some (.int n, rem)
      | none => none
    else none

/-- Parse the fields of a JSON object after the opening brace, with fuel
bounding the number of fields (the callers pass the input length, which
always suffices since each field consumes at least one character). -/
def parseFieldsLoop : Nat → List Char → Option (JObj × List Char)
  | 0, _ => none
  | fuel + 1, l =>
    match l with
    | c :: rest =>
      if c = quoteChar then
        match parseStringBody rest with
        | some (kcs, rem1) =>
          match skipWs rem1 with
          | c2 :: rem2 =>
            if c2 = ':' then
              match parseJVal (skipWs rem2) with
              | some (v, rem3) =>
                match skipWs rem3 with
                | c3 :: rem4 =>
                  if c3 = ',' then
                    match parseFieldsLoop fuel (skipWs rem4) with
                    | some (fs, rem5) =>
                      some ((String.mk kcs, v) :: fs, rem5)
                    | none => none
                  else if c3 = rbrace then
                    some ([(String.mk kcs, v)], rem4)
                  else none
                | [] => none
              | none => none
            else none
          | [] => none
        | none => none
      else none
    | [] => none

/-- Parse one JSON object from the input, returning it with the rest of
the input. -/
def parseLine (l : List Char) : Option (JObj × List Char) :=
  match skipWs l with
  | c :: rest =>
    if c = lbrace then
      match skipWs rest with
      | c2 :: rest2 =>
        if c2 = rbrace then some ([], rest2)
        else parseFieldsLoop (rest.length + 1) (c2 :: rest2)
      | [] => none
    else none
  | [] => none

/-- `msgspec.json.decode(raw, type=SwarmEnvelope)`: parse the JSON text,
require that nothing but whitespace follows, then build the struct with
`forbid_unknown_fields` semantics. -/
def decodeChars (l : List Char) : Option SwarmEnvelope :=
  match parseLine l with
  | some (obj, rem) =>
    if (skipWs rem).isEmpty then decodeObj obj else none
  | none => none

/-! ## Ingress translator (`_to_synthetic_message`) -/

/-- Python `bytes.strip()` / `str.strip()` whitespace set (space, tab,
newline, carriage return, vertical tab, form feed). -/
def isPyWs (c : Char) : Bool :=
  c = ' ' || c = '\t' || c = '\n' || c.toNat = 13 || c.toNat = 11 ||
    c.toNat = 12

/-- Model of Python's `.strip()`: drop whitespace from both ends. -/
def stripChars (l : List Char) : List Char :=
  ((l.dropWhile isPyWs).reverse.dropWhile isPyWs).reverse

/-- Modelled from the spec: `TelegramIncomingMessage`
(`takopi.telegram.types`, outside the shown sources) with the fields the
translator's constructor call and the spec (§4.3) describe.  `raw` holds
the `{"swarm": msgspec.to_builtins(envelope)}` payload. -/
structure TelegramIncomingMessage where
  transport : String
  chat_id : Int
  message_id : Int
  text : String
  reply_to_message_id : Option Int
  reply_to_text : Option String
  sender_id : Option Int
  thread_id : Option Int
  raw : List (String × JObj)
  ingress_source : String
  ingress_intent : String
  origin_agent : Option String
deriving DecidableEq

/-- The message literal `_to_synthetic_message` constructs on the
trigger path (factored out of `toSyntheticMessage` so theorems can name
it). -/
def syntheticMessage (envelope : SwarmEnvelope) (message_id : Int) :
    TelegramIncomingMessage :=
  { transport := sTelegram,
    chat_id := envelope.chat_id,
    message_id := message_id,
    text := envelope.text,
    reply_to_message_id := none,
    reply_to_text := none,
    sender_id := none,
    thread_id := envelope.thread_id,
    raw := [(sSwarm, encodeEnvelope envelope)],
    ingress_source := sSwarm,
    ingress_intent := envelope.intent.toStr,
    origin_agent := envelope.origin_agent }

/-- `_to_synthetic_message(envelope, message_id=...)`: non-trigger
records yield nothing; trigger records with whitespace-only text yield
nothing (debug-logged in the source); otherwise the synthetic message. -/
def toSyntheticMessage (envelope : SwarmEnvelope) (message_id : Int) :
    Option TelegramIncomingMessage :=
  if envelope.intent ≠ .trigger then none
  else if (stripChars envelope.text.data).isEmpty then none
  else some (syntheticMessage envelope message_id)

/-! ## Log tailer (`_read_chunk` and `poll_swarm_inbox`) -/

/-- Warning-level log emissions of the poll loop (one per record whose
decode fails). -/
inductive LogEvent where
  | decodeFailed
deriving DecidableEq

/-- `payload.split(b"\n")` with the final segment split off:
`(complete lines, trailing fragment)`. -/
def splitComplete : List Char → List (List Char) × List Char
  | [] => ([], [])
  | c :: rest =>
    if c = '\n' then
      ([] :: (splitComplete rest).1, (splitComplete rest).2)
    else
      match splitComplete rest with
      | ([], t) => ([], c :: t)
      | (l :: ls, t) => ((c :: l) :: ls, t)

/-- The per-line body of the poll loop over the complete segments:
blank segments are skipped silently, decode failures are logged and
skipped, non-trigger or empty-text records are dropped, and each yielded
message consumes the current synthetic id (which then decrements). -/
def processLines :
    List (List Char) → Int →
      List TelegramIncomingMessage × List LogEvent × Int
  | [], nid => ([], [], nid)
  | line :: rest, nid =>
    let raw := stripChars line
    if raw.isEmpty then processLines rest nid
    else
      match decodeChars raw with
      | none =>
        let (ms, ls, n') := processLines rest nid
        (ms, .decodeFailed :: ls, n')
      | some envelope =>
        match toSyntheticMessage envelope nid with
        | none => processLines rest nid
        | some m =>
          let (ms, ls, n') := processLines rest (nid - 1)
          (m :: ms, ls, n')

/-- `_read_chunk(path, offset=...)`: seek to the end to learn the size,
reset the offset to 0 when the file shrank below it, then read
everything from the offset on and advance the offset by the number of
characters read. -/
def readChunk (file : List Char) (offset : Nat) : List Char × Nat :=
  let size := file.length
  let off := if size < offset then 0 else offset
  let chunk := file.drop off
  (chunk, off + chunk.length)

/-- The mutable state of one `poll_swarm_inbox` generator instance. -/
structure PollState where
  offset : Nat
  remainder : List Char
  nextMessageId : Int
deriving DecidableEq

def initPollState : PollState :=
  { offset := 0, remainder := [], nextMessageId := -1 }

/-- One iteration of the `while True` loop of `poll_swarm_inbox`.
`file = none` models `FileNotFoundError` from `_read_chunk`: offset and
remainder reset, nothing is yielded, the loop sleeps and continues. -/
def pollCycle (file : Option (List Char)) (st : PollState) :
    PollState × List TelegramIncomingMessage × List LogEvent :=
  match file with
  | none =>
    ({ offset := 0, remainder := [],
       nextMessageId := st.nextMessageId }, [], [])
  | some f =>
    let rc := readChunk f st.offset
    if rc.1.isEmpty then
      ({ st with offset := rc.2 }, [], [])
    else
      let payload := st.remainder ++ rc.1
      let sc := splitComplete payload
      let pl := processLines sc.1 st.nextMessageId
      ({ offset := rc.2, remainder := sc.2,
         nextMessageId := pl.2.2 }, pl.1, pl.2.1)

/-- Several consecutive iterations of the poll loop, against the file
contents observed at each iteration, accumulating yielded messages and
logged warnings in order. -/
def runCycles :
    List (Option (List Char)) → PollState →
      PollState × List TelegramIncomingMessage × List LogEvent
  | [], st => (st, [], [])
  | f :: fs, st =>
    let r1 := pollCycle f st
    let r2 := runCycles fs r1.1
    (r2.1, r1.2.1 ++ r2.2.1, r1.2.2 ++ r2.2.2)

/-- The descending id sequence `n, n-1, n-2, ...` of length `k`. -/
def descFrom : Int → Nat → List Int
  | _, 0 => []
  | n, k + 1 => n :: descFrom (n - 1) k

/-- The file contents seen by consecutive polls of an append-only file:
each later content extends the previous one. -/
def chainExtends : List Char → List (List Char) → Prop
  | _, [] => True
  | f, g :: gs => (∃ e, g = f ++ e) ∧ chainExtends g gs

/-! ## Topic reconciliation service (`service.py`)

The chat-platform client and the topic-state store are collaborators
outside the shown sources; they are modelled from the spec (§6) as a
deterministic `World`: a list of persisted snapshots, the set of
externally existing forum-topic thread ids, a fresh-id counter and a
counter of `create_forum_topic` invocations. -/

/-- `RunContext(project=..., branch=...)`. -/
structure RunContext where
  project : String
  branch : Option String
deriving DecidableEq

/-- Modelled from the spec: `TopicThreadSnapshot`
(`takopi.telegram.topic_state`, outside the shown sources): the persisted
binding of a `(chat, thread)` pair. -/
structure TopicThreadSnapshot where
  chat_id : Int
  thread_id : Int
  context : Option RunContext
  sessions : List String
  topic_title : Option String
  default_engine : Option String
deriving DecidableEq

/-- `TopicStatus` dataclass of service.py. -/
structure TopicStatus where
  chat_id : Int
  thread_id : Int
  project : Option String
  branch : Option String
  topic_title : Option String
  default_engine : Option String
  sessions : List String
deriving DecidableEq

/-- `normalize_branch`: `None` stays `None`; otherwise strip, and an
empty result becomes `None`. -/
def normalize_branch : Option String → Option String
  | none => none
  | some v =>
    let stripped := String.mk (stripChars v.data)
    if stripped = "" then none else some stripped

/-- `build_topic_title`: `"{alias} @{branch}"` when the branch is truthy
(non-`None` and non-empty), else the alias alone. -/
def build_topic_title (project_alias : String)
    (branch : Option String) : String :=
  match branch with
  | some b => if b = "" then project_alias else project_alias ++ " @" ++ b
  | none => project_alias

/-- Python `project_aliases.get(project_key, project_key)`. -/
def aliasLookup (aliases : List (String × String)) (k : String) : String :=
  match aliases.find? (fun p => decide (p.1 = k)) with
  | some p => p.2
  | none => k

def insertString (s : String) : List String → List String
  | [] => [s]
  | x :: xs => if s ≤ x then s :: x :: xs else x :: insertString s xs

/-- Python `sorted(...)` over the session identifiers. -/
def sortStrings : List String → List String
  | [] => []
  | x :: xs => insertString x (sortStrings xs)

/-- `snapshot_to_status`: project the persisted snapshot through the
alias table; an absent context leaves project and branch unset. -/
def snapshot_to_status (snapshot : TopicThreadSnapshot)
    (project_aliases : List (String × String)) : TopicStatus :=
  let project_key := match snapshot.context with
    | some c => some c.project
    | none => none
  let project := match project_key with
    | some k => some (aliasLookup project_aliases k)
    | none => none
  let branch := match snapshot.context with
    | some c => c.branch
    | none => none
  { chat_id := snapshot.chat_id,
    thread_id := snapshot.thread_id,
    project := project,
    branch := branch,
    topic_title := snapshot.topic_title,
    default_engine := snapshot.default_engine,
    sessions := sortStrings snapshot.sessions }

/-- Modelled from the spec: deterministic state of the external
collaborators of `ensure_topic_thread`. -/
structure World where
  store : List TopicThreadSnapshot
  topics : List Int
  nextThreadId : Int
  createOk : Bool
  createCalls : Nat
deriving DecidableEq

/-- Modelled from the spec: `findThreadForContext(chatId, context) ->
threadId?` — the thread bound to exactly this context in this chat. -/
def find_thread_for_context (w : World) (chat : Int)
    (ctx : RunContext) : Option Int :=
  match w.store.find?
      (fun s => decide (s.chat_id = chat ∧ s.context = some ctx)) with
  | some s => some s.thread_id
  | none => none

/-- Modelled from the spec: `getThread(chatId, threadId) -> snapshot?`. -/
def get_thread (w : World) (chat tid : Int) :
    Option TopicThreadSnapshot :=
  w.store.find? (fun s => decide (s.chat_id = chat ∧ s.thread_id = tid))

/-- Modelled from the spec: `setContext(chatId, threadId, context,
title)` — update the binding's context and title, creating the snapshot
when absent. -/
def set_context (w : World) (chat tid : Int) (ctx : RunContext)
    (title : String) : World :=
  if (get_thread w chat tid).isSome then
    { w with store := w.store.map (fun s =>
        if s.chat_id = chat ∧ s.thread_id = tid then
          { s with context := some ctx, topic_title := some title }
        else s) }
  else
    { w with store :=
        { chat_id := chat, thread_id := tid, context := some ctx,
          sessions := [], topic_title := some title,
          default_engine := none } :: w.store }

/-- Modelled from the spec: `deleteThread(chatId, threadId)`. -/
def delete_thread (w : World) (chat tid : Int) : World :=
  { w with store := w.store.filter (fun s =>
      decide (¬ (s.chat_id = chat ∧ s.thread_id = tid))) }

/-- Modelled from the spec: `editForumTopic(chatId, threadId, title) ->
success` — renaming succeeds exactly when the external topic exists. -/
def edit_forum_topic (w : World) (tid : Int) : Bool :=
  decide (tid ∈ w.topics)

/-- Modelled from the spec: `createForumTopic(chatId, title) ->
{threadId}?` — allocate a fresh external topic (or fail when the
platform is unhealthy); every invocation bumps `createCalls`. -/
def create_forum_topic (w : World) : World × Option Int :=
  if w.createOk then
    let w' :=
      { w with
        topics := w.nextThreadId :: w.topics,
        nextThreadId := w.nextThreadId + 1,
        createCalls := w.createCalls + 1 }
    (w', some w.nextThreadId)
  else
    ({ w with createCalls := w.createCalls + 1 }, none)

def eCreateFailed : String := "failed to create telegram forum topic"

/-- The snapshot literal `ensure_topic_thread` synthesizes when the
store has no record for the thread: it carries the requested context
only when `bind_state` is set. -/
def fallback_snapshot (chat tid : Int) (ctx : RunContext)
    (bind_state : Bool) (title : String) : TopicThreadSnapshot :=
  { chat_id := chat, thread_id := tid,
    context := if bind_state then some ctx else none,
    sessions := [], topic_title := some title, default_engine := none }

/-- The creation tail of `ensure_topic_thread` (lines 127–151): create
the external topic (failure raises), optionally persist the binding,
return the freshest snapshot's status with `created=True`. -/
def createTopicTail (w : World) (chat_id : Int)
    (project_key project_alias : String) (context : RunContext)
    (title : String) (bind_state : Bool) :
    World × Except String (TopicStatus × Bool) :=
  let cr := create_forum_topic w
  match cr.2 with
  | none => (cr.1, .error eCreateFailed)
  | some thread_id =>
    let w1 := if bind_state then
      set_context cr.1 chat_id thread_id context title else cr.1
    let snapshot := match get_thread w1 chat_id thread_id with
      | some s => s
      | none => fallback_snapshot chat_id thread_id context bind_state title
    (w1, .ok (snapshot_to_status snapshot [(project_key, project_alias)],
      true))

/-- `ensure_topic_thread`: look up the binding; on a hit try to rename
the external topic and reuse it (`created=False`); if the rename fails,
delete the stale binding and fall through to creation; on a miss create
a new topic (`created=True`). -/
def ensure_topic_thread (w : World) (chat_id : Int)
    (project_key project_alias : String) (branch : Option String)
    (bind_state : Bool) : World × Except String (TopicStatus × Bool) :=
  let context : RunContext := { project := project_key, branch := branch }
  let title := build_topic_title project_alias branch
  match find_thread_for_context w chat_id context with
  | some existing_thread_id =>
    if edit_forum_topic w existing_thread_id then
      let w1 := if bind_state then
        set_context w chat_id existing_thread_id context title else w
      let snapshot := match get_thread w1 chat_id existing_thread_id with
        | some s => s
        | none =>
          fallback_snapshot chat_id existing_thread_id context bind_state
            title
      (w1, .ok (snapshot_to_status snapshot
        [(project_key, project_alias)], false))
    else
      createTopicTail (delete_thread w chat_id existing_thread_id)
        chat_id project_key project_alias context title bind_state
  | none =>
    createTopicTail w chat_id project_key project_alias context title
      bind_state

/-- The world after a successful `create_forum_topic`. -/
def created_world (w : World) : World := (create_forum_topic w).1

/-! ## Concrete inputs used by counterexamples and witnesses -/

def envA : SwarmEnvelope :=
  { event_id := "a", intent := .trigger, chat_id := 1, text := "A" }

def envB : SwarmEnvelope :=
  { event_id := "b", intent := .trigger, chat_id := 1, text := "B" }

def envC : SwarmEnvelope :=
  { event_id := "c", intent := .trigger, chat_id := 1, text := "C" }

def envCtl : SwarmEnvelope :=
  { event_id := "k", intent := .control, chat_id := 1, text := "ctl" }

def envWs : SwarmEnvelope :=
  { event_id := "w", intent := .trigger, chat_id := 1, text := "  " }

/-- First observed contents: a complete record for A, then a truncated
prefix of B's record. -/
def fileC2a : List Char :=
  encodeEnvelopeChars envA ++ '\n' :: (encodeEnvelopeChars envB).take 5

/-- Second observed contents: the remainder of B plus a complete record
for C have been appended. -/
def fileC2b : List Char :=
  fileC2a ++ ((encodeEnvelopeChars envB).drop 5 ++
    '\n' :: (encodeEnvelopeChars envC ++ ['\n']))

/-! ## Witnesses -/

def dProj : String := "demo"

def dAlias : String := "Demo"

def dBranch : String := "main"

def kExtra : String := "extra"

def badLine : String :=
  "\x7b\"version\":1,\"event_id\":\"e\",\"intent\":\"trigger\",\"chat_id\":1,\"text\":\"hi\",\"extra\":5\x7d"

def objBad : JObj :=
  [(kVersion, .int 1), (kEventId, .str "e"), (kIntent, .str sTrigger),
   (kChatId, .int 1), (kText, .str "hi"), (kExtra, .int 5)]

def oopsLine : String := "oops"

def blankLine : String := "  "

def w0 : World :=
  { store := [], topics := [], nextThreadId := 100, createOk := true,
    createCalls := 0 }

def snapStale : TopicThreadSnapshot :=
  { chat_id := 1, thread_id := 5,
    context := some { project := dProj, branch := none },
    sessions := [], topic_title := some dAlias,
    default_engine := none }

def wStale : World :=
  { store := [snapStale], topics := [], nextThreadId := 100,
    createOk := true, createCalls := 0 }

def fileW5a : List Char := encodeEnvelopeChars envA ++ ['\n']

def extW5 : List Char := encodeEnvelopeChars envB ++ ['\n']

def fileW5b : List Char := fileW5a ++ extW5

def stW9 : PollState :=
  { offset := 50, remainder := [], nextMessageId := -3 }

def fW9 : List Char := ['a', 'b']

theorem decStep_unknown (st : DecState) (kv : String × JVal)
    (h : kv.1 ∉ knownFields) : decStep st kv = none := by
  simp only [knownFields, List.mem_cons, List.not_mem_nil, or_false,
    not_or] at h
  obtain ⟨h1, h2, h3, h4, h5, h6, h7, h8⟩ := h
  simp [decStep, h1, h2, h3, h4, h5, h6, h7, h8]

/-- An object containing any field outside the known set fails to decode,
no matter where the field sits. -/
theorem decodeObj_unknown_field (obj : JObj) (kv : String × JVal)
    (hmem : kv ∈ obj) (hk : kv.1 ∉ knownFields) :
    decodeObj obj = none := by
  have hfold : ∀ (st : DecState), List.foldlM decStep st obj = none := by
    induction obj with
    | nil => simp at hmem
    | cons hd tl ih =>
      intro st
      rcases List.mem_cons.mp hmem with heq | htl
      · subst heq
        simp [List.foldlM, decStep_unknown st kv hk]
      · cases hstep : decStep st hd with
        | none => simp [List.foldlM, hstep]
        | some st' => simp [List.foldlM, hstep, ih htl]
  simp [decodeObj, hfold]

/-- The structural decoder inverts the structural encoder. -/
theorem decodeObj_encodeEnvelope (e : SwarmEnvelope) :
    decodeObj (encodeEnvelope e) = some e := by
  obtain ⟨v, eid, it, cid, tid, txt, oa, ca⟩ := e
  cases it <;> cases tid <;> cases oa <;> cases ca <;> rfl

/-! ## Round trip: the parser inverts the renderer -/

theorem digitsFuel_eq (fuel n : Nat) (h : n ≤ fuel) :
    digitsFuel fuel n = Nat.digits 10 n := by
  induction fuel generalizing n with
  | zero =>
    have h0 : n = 0 := by omega
    subst h0
    simp [digitsFuel]
  | succ fuel ih =>
    by_cases h0 : n = 0
    · subst h0
      simp [digitsFuel]
    · rw [show digitsFuel (fuel + 1) n = n % 10 :: digitsFuel fuel (n / 10)
        from by simp [digitsFuel, h0]]
      rw [Nat.digits_def' (by norm_num : 1 < 10) (Nat.pos_of_ne_zero h0)]
      congr 1
      apply ih
      have := Nat.div_lt_self (Nat.pos_of_ne_zero h0)
        (by norm_num : 1 < 10)
      omega

theorem renderNat_eq (n : Nat) :
    renderNat n = if n = 0 then ['0']
      else ((Nat.digits 10 n).map digitChar).reverse := by
  unfold renderNat
  rw [digitsFuel_eq n n (le_refl n)]

theorem skipWs_cons_of_not_ws {c : Char} (l : List Char)
    (h : isJsonWs c = false) : skipWs (c :: l) = c :: l := by
  simp [skipWs, List.dropWhile_cons, h]

theorem psb_quote (rest : List Char) :
    parseStringBody (quoteChar :: rest) = some ([], rest) := by
  rw [parseStringBody.eq_def]
  simp

theorem psb_raw (c : Char) (rest : List Char) (h1 : ¬ c = quoteChar)
    (h2 : ¬ c = backslashChar) (h3 : ¬ c.toNat < 32) :
    parseStringBody (c :: rest) =
      match parseStringBody rest with
      | some (cs, rem) => some (c :: cs, rem)
      | none => none := by
  rw [parseStringBody.eq_def]
  simp [h1, h2, h3]

theorem psb_esc (e u : Char) (rest : List Char) (hne : ¬ e = 'u')
    (hu : unescape e = some u) :
    parseStringBody (backslashChar :: e :: rest) =
      match parseStringBody rest with
      | some (cs, rem) => some (u :: cs, rem)
      | none => none := by
  rw [parseStringBody.eq_def]
  simp +decide [hne, hu]

theorem psb_u (h1 h2 h3 h4 : Char) (a b c2 d : Nat) (rest : List Char)
    (hv1 : hexVal h1 = some a) (hv2 : hexVal h2 = some b)
    (hv3 : hexVal h3 = some c2) (hv4 : hexVal h4 = some d) :
    parseStringBody
        (backslashChar :: 'u' :: h1 :: h2 :: h3 :: h4 :: rest) =
      match parseStringBody rest with
      | some (cs, rem) =>
        some (Char.ofNat (((a * 16 + b) * 16 + c2) * 16 + d) :: cs, rem)
      | none => none := by
  rw [parseStringBody.eq_def]
  simp +decide [hv1, hv2, hv3, hv4]

theorem hexVal_hexDigit {n : Nat} (h : n < 16) :
    hexVal (hexDigit n) = some n := by
  revert h
  have : ∀ n < 16, hexVal (hexDigit n) = some n := by decide
  exact fun h => this _ h

theorem parseStringBody_render (cs rest : List Char) :
    parseStringBody (renderChars cs ++ quoteChar :: rest) =
      some (cs, rest) := by
  induction cs with
  | nil =>
    show parseStringBody (quoteChar :: rest) = _
    exact psb_quote rest
  | cons c cs ih =>
    have hsplit : renderChars (c :: cs) ++ quoteChar :: rest =
        escapeChar c ++ (renderChars cs ++ quoteChar :: rest) := by
      show (escapeChar c ++ renderChars cs) ++ _ = _
      rw [List.append_assoc]
    rw [hsplit]
    by_cases hq : c = quoteChar
    · subst hq
      rw [show escapeChar quoteChar = [backslashChar, quoteChar] from by
        decide]
      rw [List.cons_append, List.cons_append, List.nil_append,
        psb_esc quoteChar quoteChar _ (by decide) (by decide), ih]
    by_cases hb : c = backslashChar
    · subst hb
      rw [show escapeChar backslashChar =
        [backslashChar, backslashChar] from by decide]
      rw [List.cons_append, List.cons_append, List.nil_append,
        psb_esc backslashChar backslashChar _ (by decide) (by decide), ih]
    by_cases h8 : c.toNat = 8
    · have hc : Char.ofNat 8 = c := by rw [← h8, Char.ofNat_toNat]
      have he : escapeChar c = [backslashChar, 'b'] := by
        simp [escapeChar, hq, hb, h8]
      rw [he, List.cons_append, List.cons_append, List.nil_append,
        psb_esc 'b' (Char.ofNat 8) _ (by decide) (by decide), ih, hc]
    by_cases h9 : c.toNat = 9
    · have hc : Char.ofNat 9 = c := by rw [← h9, Char.ofNat_toNat]
      have he : escapeChar c = [backslashChar, 't'] := by
        simp [escapeChar, hq, hb, h8, h9]
      rw [he, List.cons_append, List.cons_append, List.nil_append,
        psb_esc 't' (Char.ofNat 9) _ (by decide) (by decide), ih, hc]
    by_cases h10 : c.toNat = 10
    · have hc : Char.ofNat 10 = c := by rw [← h10, Char.ofNat_toNat]
      have he : escapeChar c = [backslashChar, 'n'] := by
        simp [escapeChar, hq, hb, h8, h9, h10]
      rw [he, List.cons_append, List.cons_append, List.nil_append,
        psb_esc 'n' (Char.ofNat 10) _ (by decide) (by decide), ih, hc]
    by_cases h12 : c.toNat = 12
    · have hc : Char.ofNat 12 = c := by rw [← h12, Char.ofNat_toNat]
      have he : escapeChar c = [backslashChar, 'f'] := by
        simp [escapeChar, hq, hb, h8, h9, h10, h12]
      rw [he, List.cons_append, List.cons_append, List.nil_append,
        psb_esc 'f' (Char.ofNat 12) _ (by decide) (by decide), ih, hc]
    by_cases h13 : c.toNat = 13
    · have hc : Char.ofNat 13 = c := by rw [← h13, Char.ofNat_toNat]
      have he : escapeChar c = [backslashChar, 'r'] := by
        simp [escapeChar, hq, hb, h8, h9, h10, h12, h13]
      rw [he, List.cons_append, List.cons_append, List.nil_append,
        psb_esc 'r' (Char.ofNat 13) _ (by decide) (by decide), ih, hc]
    by_cases h32 : c.toNat < 32
    · have he : escapeChar c = [backslashChar, 'u', '0', '0',
          hexDigit (c.toNat / 16), hexDigit (c.toNat % 16)] := by
        simp [escapeChar, hq, hb, h8, h9, h10, h12, h13, h32]
      have hdiv16 : c.toNat / 16 < 16 := by omega
      have hmod16 : c.toNat % 16 < 16 := Nat.mod_lt _ (by omega)
      have hcode : ((0 * 16 + 0) * 16 + c.toNat / 16) * 16 +
          c.toNat % 16 = c.toNat := by omega
      have hc : Char.ofNat (((0 * 16 + 0) * 16 + c.toNat / 16) * 16 +
          c.toNat % 16) = c := by rw [hcode, Char.ofNat_toNat]
      rw [he]
      simp only [List.cons_append, List.nil_append]
      rw [psb_u '0' '0' (hexDigit (c.toNat / 16))
        (hexDigit (c.toNat % 16)) 0 0 (c.toNat / 16) (c.toNat % 16) _
        (by decide) (by decide) (hexVal_hexDigit hdiv16)
        (hexVal_hexDigit hmod16), ih, hc]
    · have he : escapeChar c = [c] := by
        simp [escapeChar, hq, hb, h8, h9, h10, h12, h13, h32]
      rw [he, List.cons_append, List.nil_append,
        psb_raw c _ hq hb h32, ih]

theorem foldl_digits_reverse (ds : List Nat) (acc : Nat) :
    ds.reverse.foldl (fun a d => a * 10 + d) acc =
      acc * 10 ^ ds.length + Nat.ofDigits 10 ds := by
  induction ds generalizing acc with
  | nil => simp [Nat.ofDigits]
  | cons d ds ih =>
    simp only [List.reverse_cons, List.foldl_append, List.foldl_cons,
      List.foldl_nil, ih, Nat.ofDigits_cons, List.length_cons]
    ring

theorem parseDigitsAux_map (bs : List Nat) (hb : ∀ b ∈ bs, b < 10)
    (acc : Nat) (rest : List Char)
    (hrest : ∀ c, rest.head? = some c → isDigitChar c = false) :
    parseDigitsAux (bs.map digitChar ++ rest) acc =
      (bs.foldl (fun a b => a * 10 + b) acc, rest) := by
  induction bs generalizing acc with
  | nil =>
    cases rest with
    | nil => simp [parseDigitsAux]
    | cons c r =>
      have := hrest c (by simp)
      simp [parseDigitsAux, this]
  | cons b bs ih =>
    have hb0 : b < 10 := hb b (by simp)
    have hdig : isDigitChar (digitChar b) = true := by
      revert hb0
      have : ∀ b < 10, isDigitChar (digitChar b) = true := by decide
      exact fun h => this _ h
    have htn : (digitChar b).toNat - 48 = b := by
      revert hb0
      have : ∀ b < 10, (digitChar b).toNat - 48 = b := by decide
      exact fun h => this _ h
    simp only [List.map_cons, List.cons_append, parseDigitsAux, hdig,
      if_true, htn, List.foldl_cons]
    exact ih (fun x hx => hb x (by simp [hx])) _

theorem renderNat_all_digits (n : Nat) :
    ∀ c ∈ renderNat n, isDigitChar c = true := by
  intro c hc
  rw [renderNat_eq] at hc
  split at hc
  · simp at hc
    subst hc
    decide
  · rw [List.mem_reverse, List.mem_map] at hc
    obtain ⟨d, hd, rfl⟩ := hc
    have : d < 10 := Nat.digits_lt_base (by norm_num) hd
    revert this
    have h10 : ∀ d < 10, isDigitChar (digitChar d) = true := by decide
    exact fun h => h10 _ h

theorem renderNat_ne_nil (n : Nat) : renderNat n ≠ [] := by
  rw [renderNat_eq]
  split
  · simp
  · simp [Nat.digits_ne_nil_iff_ne_zero, *]

theorem parseDigits_renderNat (n : Nat) (rest : List Char)
    (hrest : ∀ c, rest.head? = some c → isDigitChar c = false) :
    parseDigits (renderNat n ++ rest) = some (n, rest) := by
  by_cases h0 : n = 0
  · subst h0
    have : renderNat 0 = ['0'] := by decide
    rw [this]
    have hd : isDigitChar '0' = true := by decide
    have := parseDigitsAux_map [] (by simp) 0 rest hrest
    simp only [List.map_nil, List.nil_append, List.foldl_nil] at this
    simp [parseDigits, hd, this]
  · have hrn : renderNat n = ((Nat.digits 10 n).reverse).map digitChar := by
      rw [renderNat_eq]
      rw [if_neg h0, List.map_reverse]
    obtain ⟨b, bs, hbs⟩ : ∃ b bs, (Nat.digits 10 n).reverse = b :: bs := by
      have : (Nat.digits 10 n).reverse ≠ [] := by
        simp [Nat.digits_ne_nil_iff_ne_zero, h0]
      cases hr : (Nat.digits 10 n).reverse with
      | nil => exact absurd hr this
      | cons b bs => exact ⟨b, bs, rfl⟩
    have hball : ∀ x ∈ b :: bs, x < 10 := by
      intro x hx
      rw [← hbs, List.mem_reverse] at hx
      exact Nat.digits_lt_base (by norm_num) hx
    have hb0 : b < 10 := hball b (by simp)
    have hdig : isDigitChar (digitChar b) = true := by
      revert hb0
      have : ∀ b < 10, isDigitChar (digitChar b) = true := by decide
      exact fun h => this _ h
    have htn : (digitChar b).toNat - 48 = b := by
      revert hb0
      have : ∀ b < 10, (digitChar b).toNat - 48 = b := by decide
      exact fun h => this _ h
    have haux := parseDigitsAux_map bs (fun x hx => hball x (by simp [hx]))
      ((digitChar b).toNat - 48) rest hrest
    have hfold : (b :: bs).foldl (fun a d => a * 10 + d) 0 = n := by
      have := foldl_digits_reverse (Nat.digits 10 n) 0
      rw [hbs] at this
      simpa [Nat.ofDigits_digits] using this
    rw [hrn, hbs]
    simp only [List.map_cons, List.cons_append, parseDigits, hdig, if_true]
    rw [haux, htn]
    simp only [List.foldl_cons, Nat.zero_mul, Nat.zero_add] at hfold
    rw [hfold]

theorem pi_neg (l : List Char) :
    parseInt ('-' :: l) =
      match parseDigits l with
      | some (n, rem) => some (-(n : Int), rem)
      | none => none := by
  simp [parseInt]

theorem pi_pos (c : Char) (l : List Char) (h : ¬ c = '-') :
    parseInt (c :: l) =
      match parseDigits (c :: l) with
      | some (n, rem) => some ((n : Int), rem)
      | none => none := by
  simp [parseInt, h]

theorem parseInt_renderInt (n : Int) (rest : List Char)
    (hrest : ∀ c, rest.head? = some c → isDigitChar c = false) :
    parseInt (renderInt n ++ rest) = some (n, rest) := by
  by_cases hneg : n < 0
  · have hri : renderInt n = '-' :: renderNat n.natAbs := by
      simp [renderInt, hneg]
    rw [hri, List.cons_append, pi_neg,
      parseDigits_renderNat n.natAbs rest hrest]
    have : -(n.natAbs : Int) = n := by omega
    simp [this, abs_of_neg hneg]
  · have hri : renderInt n = renderNat n.natAbs := by
      simp [renderInt, hneg]
    obtain ⟨c, cs, hcs⟩ : ∃ c cs, renderNat n.natAbs = c :: cs := by
      cases hr : renderNat n.natAbs with
      | nil => exact absurd hr (renderNat_ne_nil _)
      | cons c cs => exact ⟨c, cs, rfl⟩
    have hcdig : isDigitChar c = true :=
      renderNat_all_digits n.natAbs c (by rw [hcs]; simp)
    have hcne : ¬ c = '-' := by
      intro h
      subst h
      have hd : isDigitChar '-' = false := by decide
      rw [hd] at hcdig
      exact absurd hcdig (by simp)
    have hpd := parseDigits_renderNat n.natAbs rest hrest
    rw [hcs, List.cons_append] at hpd
    rw [hri, hcs, List.cons_append, pi_pos c _ hcne, hpd]
    have : (n.natAbs : Int) = n := by omega
    simp [this]

theorem stringMk_data (s : String) : String.mk s.data = s := by
  cases s
  rfl

theorem parseJVal_render (v : JVal) (rest : List Char)
    (hrest : ∀ c, rest.head? = some c → isDigitChar c = false) :
    parseJVal (renderJVal v ++ rest) = some (v, rest) := by
  cases v with
  | null =>
    simp +decide [renderJVal, parseJVal]
  | str s =>
    show parseJVal (quoteChar :: renderChars s.data ++ [quoteChar] ++ rest)
      = _
    have := parseStringBody_render s.data rest
    simp [parseJVal, this, stringMk_data]
  | int n =>
    have hpi := parseInt_renderInt n rest hrest
    obtain ⟨c, cs, hcs⟩ : ∃ c cs, renderInt n = c :: cs := by
      cases hr : renderInt n with
      | nil =>
        exfalso
        unfold renderInt at hr
        split at hr
        · simp at hr
        · exact absurd hr (renderNat_ne_nil _)
      | cons c cs => exact ⟨c, cs, rfl⟩
    have hcform : c = '-' ∨ isDigitChar c = true := by
      unfold renderInt at hcs
      split at hcs
      · left
        exact (List.cons.injEq _ _ _ _ ▸ hcs).1.symm
      · right
        exact renderNat_all_digits n.natAbs c (by rw [hcs]; simp)
    have hcnq : ¬ c = quoteChar := by
      rcases hcform with h | h
      · subst h; decide
      · intro he
        subst he
        have : isDigitChar quoteChar = false := by decide
        rw [this] at h
        exact absurd h (by simp)
    have hcnn : ¬ c = 'n' := by
      rcases hcform with h | h
      · subst h; decide
      · intro he
        subst he
        have : isDigitChar 'n' = false := by decide
        rw [this] at h
        exact absurd h (by simp)
    have hcond : (c = '-' || isDigitChar c) = true := by
      rcases hcform with h | h
      · subst h; simp
      · simp [h]
    show parseJVal (renderInt n ++ rest) = _
    rw [hcs] at hpi ⊢
    rw [List.cons_append] at hpi ⊢
    simp only [parseJVal, if_neg hcnq, if_neg hcnn, hcond, if_true, hpi]

theorem renderField_shape (k : String) (v : JVal) (tail : List Char) :
    renderField (k, v) ++ tail =
      quoteChar :: (renderChars k.data ++ quoteChar ::
        ':' :: (renderJVal v ++ tail)) := by
  show (renderString k ++ ':' :: renderJVal v) ++ tail = _
  simp [renderString, List.append_assoc]

theorem renderJVal_head_shape (v : JVal) :
    ∃ c cs, renderJVal v = c :: cs ∧ isJsonWs c = false ∧
      (c = quoteChar ∨ c = 'n' ∨ c = '-' ∨ isDigitChar c = true) := by
  cases v with
  | null => exact ⟨'n', _, rfl, by decide, by simp⟩
  | str s => exact ⟨quoteChar, _, rfl, by decide, by simp⟩
  | int n =>
    by_cases hneg : n < 0
    · refine ⟨'-', renderNat n.natAbs, ?_, by decide, by simp⟩
      simp [renderJVal, renderInt, hneg]
    · obtain ⟨c, cs, hcs⟩ : ∃ c cs, renderNat n.natAbs = c :: cs := by
        cases hr : renderNat n.natAbs with
        | nil => exact absurd hr (renderNat_ne_nil _)
        | cons c cs => exact ⟨c, cs, rfl⟩
      have hdig : isDigitChar c = true :=
        renderNat_all_digits n.natAbs c (by rw [hcs]; simp)
      have hws : isJsonWs c = false := by
        revert hdig
        have : ∀ x : Char, isDigitChar x = true → isJsonWs x = false := by
          intro x hx
          simp only [isDigitChar, Bool.and_eq_true, decide_eq_true_eq] at hx
          have e1 : x ≠ ' ' := by intro he; subst he; revert hx; decide
          have e2 : x ≠ '\t' := by intro he; subst he; revert hx; decide
          have e3 : x ≠ '\n' := by intro he; subst he; revert hx; decide
          have e4 : x ≠ '\x0d' := by
            intro he; subst he; revert hx; decide
          simp [isJsonWs, e1, e2, e3, e4]
        exact this c
      refine ⟨c, cs, ?_, hws, by simp [hdig]⟩
      simp [renderJVal, renderInt, hneg, hcs]

theorem skipWs_renderJVal (v : JVal) (rest : List Char) :
    skipWs (renderJVal v ++ rest) = renderJVal v ++ rest := by
  obtain ⟨c, cs, hcs, hws, _⟩ := renderJVal_head_shape v
  rw [hcs, List.cons_append, skipWs_cons_of_not_ws _ hws]

theorem renderFields_cons_shape (kv : String × JVal) (tl : JObj) :
    ∃ cs, renderFields (kv :: tl) = quoteChar :: cs := by
  obtain ⟨k, v⟩ := kv
  cases tl with
  | nil =>
    refine ⟨renderChars k.data ++ quoteChar :: ':' :: renderJVal v, ?_⟩
    have := renderField_shape k v []
    simpa [renderFields] using this
  | cons kv2 tl2 =>
    refine ⟨renderChars k.data ++ quoteChar ::
      ':' :: (renderJVal v ++ ',' :: renderFields (kv2 :: tl2)), ?_⟩
    show renderField (k, v) ++ ',' :: renderFields (kv2 :: tl2) = _
    rw [renderField_shape]

theorem parseFieldsLoop_render (obj : JObj) :
    ∀ (fuel : Nat) (rest : List Char), obj ≠ [] → obj.length < fuel →
      parseFieldsLoop fuel (renderFields obj ++ rbrace :: rest) =
        some (obj, rest) := by
  induction obj with
  | nil => intro fuel rest h; exact absurd rfl h
  | cons kv tl ih =>
    intro fuel rest _ hfuel
    obtain ⟨k, v⟩ := kv
    match fuel, hfuel with
    | f + 1, hfuel =>
    cases tl with
    | nil =>
      show parseFieldsLoop (f + 1)
        (renderField (k, v) ++ rbrace :: rest) = _
      rw [renderField_shape k v (rbrace :: rest)]
      simp only [parseFieldsLoop, if_pos rfl,
        parseStringBody_render k.data (':' :: (renderJVal v ++
          rbrace :: rest))]
      rw [skipWs_cons_of_not_ws _ (by decide : isJsonWs ':' = false)]
      simp only [if_pos rfl]
      rw [skipWs_renderJVal,
        parseJVal_render v (rbrace :: rest)
          (by intro c hc; simp at hc; rw [← hc]; decide)]
      simp only
      rw [skipWs_cons_of_not_ws _ (by decide : isJsonWs rbrace = false)]
      simp +decide [stringMk_data]
    | cons kv2 tl2 =>
      show parseFieldsLoop (f + 1)
        ((renderField (k, v) ++ ',' :: renderFields (kv2 :: tl2)) ++
          rbrace :: rest) = _
      rw [List.append_assoc, renderField_shape k v
        (',' :: renderFields (kv2 :: tl2) ++ rbrace :: rest)]
      simp only [parseFieldsLoop, if_pos rfl]
      rw [List.cons_append]
      rw [parseStringBody_render k.data
        (':' :: (renderJVal v ++ (',' :: (renderFields (kv2 :: tl2) ++
          rbrace :: rest))))]
      simp only
      rw [skipWs_cons_of_not_ws _ (by decide : isJsonWs ':' = false)]
      simp only [if_pos rfl]
      rw [skipWs_renderJVal,
        parseJVal_render v (',' :: (renderFields (kv2 :: tl2) ++
          rbrace :: rest))
          (by intro c hc; simp at hc; rw [← hc]; decide)]
      simp only
      rw [skipWs_cons_of_not_ws _ (by decide : isJsonWs ',' = false)]
      simp only [if_pos rfl]
      obtain ⟨cs, hcs⟩ := renderFields_cons_shape kv2 tl2
      have hq : isJsonWs quoteChar = false := by decide
      rw [show skipWs (renderFields (kv2 :: tl2) ++ rbrace :: rest) =
          renderFields (kv2 :: tl2) ++ rbrace :: rest from by
        rw [hcs, List.cons_append, skipWs_cons_of_not_ws _ hq]]
      have hlen2 : (kv2 :: tl2).length < f := by
        simp only [List.length_cons] at hfuel ⊢
        omega
      have hrec := ih f rest (by simp) hlen2
      simp +decide [hrec, stringMk_data]

theorem renderFields_length_ge (obj : JObj) :
    obj.length ≤ (renderFields obj).length := by
  induction obj with
  | nil => simp [renderFields]
  | cons kv tl ih =>
    obtain ⟨k, v⟩ := kv
    have hshape := renderField_shape k v []
    cases tl with
    | nil =>
      show 1 ≤ (renderField (k, v)).length
      have : renderField (k, v) ++ [] = renderField (k, v) := by simp
      rw [← this, hshape]
      simp
    | cons kv2 tl2 =>
      show (kv2 :: tl2).length + 1 ≤
        (renderField (k, v) ++ ',' :: renderFields (kv2 :: tl2)).length
      simp only [List.length_append, List.length_cons] at ih ⊢
      omega

theorem parseLine_renderLine (obj : JObj) :
    parseLine (renderLine obj) = some (obj, []) := by
  show parseLine (lbrace :: renderFields obj ++ [rbrace]) = _
  rw [List.cons_append, parseLine]
  rw [skipWs_cons_of_not_ws _ (by decide : isJsonWs lbrace = false)]
  simp only [if_pos rfl]
  cases obj with
  | nil =>
    rw [show renderFields ([] : JObj) ++ [rbrace] = [rbrace] from by
      simp [renderFields]]
    rw [show skipWs [rbrace] = [rbrace] from
      skipWs_cons_of_not_ws _ (by decide)]
    simp
  | cons kv tl =>
    obtain ⟨cs, hcs⟩ := renderFields_cons_shape kv tl
    rw [hcs, List.cons_append]
    rw [show skipWs (quoteChar :: (cs ++ [rbrace])) =
      quoteChar :: (cs ++ [rbrace]) from
      skipWs_cons_of_not_ws _ (by decide)]
    simp only [if_neg (by decide : ¬ quoteChar = rbrace)]
    have hlen : (kv :: tl).length <
        (quoteChar :: (cs ++ [rbrace])).length + 1 := by
      have h1 := renderFields_length_ge (kv :: tl)
      rw [hcs] at h1
      simp only [List.length_cons, List.length_append, List.length_nil]
        at h1 ⊢
      omega
    have hmain := parseFieldsLoop_render (kv :: tl)
      ((quoteChar :: (cs ++ [rbrace])).length + 1) [] (by simp) hlen
    rw [show renderFields (kv :: tl) ++ rbrace :: ([] : List Char) =
      quoteChar :: (cs ++ [rbrace]) from by
        rw [hcs, List.cons_append]] at hmain
    exact hmain

/-- Full character-level round trip: `msgspec.json.decode` of
`msgspec.json.encode` of any well-typed envelope returns the envelope. -/
theorem decodeChars_encodeEnvelopeChars (e : SwarmEnvelope) :
    decodeChars (encodeEnvelopeChars e) = some e := by
  unfold decodeChars encodeEnvelopeChars
  rw [parseLine_renderLine]
  simp [skipWs, decodeObj_encodeEnvelope]

/-! ## Tailer lemmas -/

theorem splitComplete_snd_noNl (l : List Char) :
    '\n' ∉ (splitComplete l).2 := by
  induction l with
  | nil => simp [splitComplete]
  | cons c rest ih =>
    by_cases hc : c = '\n'
    · simpa [splitComplete, hc] using ih
    · rcases hr : splitComplete rest with ⟨ls, t⟩
      rw [hr] at ih
      cases ls with
      | nil =>
        simp only [splitComplete, if_neg hc, hr]
        simp only [List.mem_cons, not_or] at ih ⊢
        exact ⟨fun he => absurd he.symm hc, ih⟩
      | cons l0 ls0 =>
        simpa [splitComplete, hc, hr] using ih

theorem splitComplete_of_noNl (l : List Char) (h : '\n' ∉ l) :
    splitComplete l = ([], l) := by
  induction l with
  | nil => simp [splitComplete]
  | cons c rest ih =>
    have hc : ¬ c = '\n' := fun he => h (by simp [he])
    have hrest : '\n' ∉ rest := fun he => h (by simp [he])
    simp [splitComplete, hc, ih hrest]

theorem splitComplete_append (a b : List Char) :
    splitComplete (a ++ b) =
      ((splitComplete a).1 ++ (splitComplete ((splitComplete a).2 ++ b)).1,
       (splitComplete ((splitComplete a).2 ++ b)).2) := by
  induction a with
  | nil => simp [splitComplete]
  | cons c a' ih =>
    by_cases hc : c = '\n'
    · subst hc
      simp [List.cons_append, splitComplete, ih]
    · rcases ha : splitComplete a' with ⟨ls, t⟩
      cases ls with
      | nil =>
        rcases hb : splitComplete (t ++ b) with ⟨bs, bt⟩
        simp only [ha, hb, List.nil_append] at ih
        cases bs with
        | nil => simp [splitComplete, hc, ha, hb, ih]
        | cons b0 bs0 => simp [splitComplete, hc, ha, hb, ih]
      | cons l0 ls0 =>
        rcases hb : splitComplete (t ++ b) with ⟨bs, bt⟩
        simp only [ha, hb] at ih
        simp [splitComplete, hc, ha, hb, ih]

theorem splitComplete_line (a b : List Char) (ha : '\n' ∉ a) :
    splitComplete (a ++ '\n' :: b) =
      (a :: (splitComplete b).1, (splitComplete b).2) := by
  induction a with
  | nil => simp [splitComplete]
  | cons c a' ih =>
    have hc : ¬ c = '\n' := fun he => ha (by simp [he])
    have ha' : '\n' ∉ a' := fun he => ha (by simp [he])
    rw [List.cons_append]
    simp [splitComplete, hc, ih ha']

theorem processLines_append (l1 l2 : List (List Char)) (n : Int) :
    processLines (l1 ++ l2) n =
      ((processLines l1 n).1 ++
        (processLines l2 (processLines l1 n).2.2).1,
       (processLines l1 n).2.1 ++
        (processLines l2 (processLines l1 n).2.2).2.1,
       (processLines l2 (processLines l1 n).2.2).2.2) := by
  induction l1 generalizing n with
  | nil => simp [processLines]
  | cons line rest ih =>
    simp only [List.cons_append, processLines]
    by_cases hblank : (stripChars line).isEmpty
    · simp only [if_pos hblank]
      exact ih n
    · simp only [if_neg hblank]
      cases hdec : decodeChars (stripChars line) with
      | none => simp [hdec, ih n]
      | some envelope =>
        cases hmsg : toSyntheticMessage envelope n with
        | none => simp [hdec, hmsg, ih n]
        | some m => simp [hdec, hmsg, ih (n - 1)]

theorem toSyntheticMessage_eq_some {e : SwarmEnvelope} {i : Int}
    {m : TelegramIncomingMessage} (h : toSyntheticMessage e i = some m) :
    m = syntheticMessage e i := by
  unfold toSyntheticMessage at h
  split_ifs at h
  exact (Option.some.inj h).symm

theorem processLines_nid (ls : List (List Char)) (n : Int) :
    (processLines ls n).2.2 = n - (processLines ls n).1.length := by
  induction ls generalizing n with
  | nil => simp [processLines]
  | cons line rest ih =>
    simp only [processLines]
    by_cases hblank : (stripChars line).isEmpty
    · simp [hblank, ih n]
    · simp only [if_neg hblank]
      cases hdec : decodeChars (stripChars line) with
      | none => simp [ih n]
      | some envelope =>
        cases hmsg : toSyntheticMessage envelope n with
        | none => simp [hmsg, ih n]
        | some m =>
          simp only [hmsg]
          simp [ih (n - 1)]
          omega

theorem processLines_ids (ls : List (List Char)) (n : Int) :
    (processLines ls n).1.map (fun m => m.message_id) =
      descFrom n (processLines ls n).1.length := by
  induction ls generalizing n with
  | nil => simp [processLines, descFrom]
  | cons line rest ih =>
    simp only [processLines]
    by_cases hblank : (stripChars line).isEmpty
    · simp only [if_pos hblank]
      exact ih n
    · simp only [if_neg hblank]
      cases hdec : decodeChars (stripChars line) with
      | none => simpa [hdec] using ih n
      | some envelope =>
        cases hmsg : toSyntheticMessage envelope n with
        | none => simpa [hdec, hmsg] using ih n
        | some m =>
          have hm := toSyntheticMessage_eq_some hmsg
          subst hm
          simp only [hdec, hmsg, List.map_cons, List.length_cons, descFrom]
          simp [syntheticMessage, ih (n - 1)]

theorem descFrom_le (n : Int) (k : Nat) :
    ∀ x ∈ descFrom n k, x ≤ n := by
  induction k generalizing n with
  | zero => simp [descFrom]
  | succ k ih =>
    intro x hx
    simp only [descFrom, List.mem_cons] at hx
    rcases hx with rfl | hx
    · exact le_refl x
    · have := ih (n - 1) x hx
      omega

theorem descFrom_pairwise (n : Int) (k : Nat) :
    List.Pairwise (fun a b => b < a) (descFrom n k) := by
  induction k generalizing n with
  | zero => simp [descFrom]
  | succ k ih =>
    simp only [descFrom, List.pairwise_cons]
    refine ⟨fun x hx => ?_, ih (n - 1)⟩
    have := descFrom_le (n - 1) k x hx
    omega

theorem readChunk_no_shrink (f : List Char) (off : Nat)
    (h : off ≤ f.length) : readChunk f off = (f.drop off, f.length) := by
  simp only [readChunk]
  rw [if_neg (Nat.not_lt.mpr h)]
  simp only [List.length_drop, Prod.mk.injEq, true_and]
  omega

theorem readChunk_shrink (f : List Char) (off : Nat)
    (h : f.length < off) : readChunk f off = (f, f.length) := by
  simp only [readChunk]
  rw [if_pos h]
  simp

/-- Uniform description of one poll cycle against a present file when
the offset has not outrun the file and the held fragment has no
delimiter: read the suffix, prepend the fragment, split, process the
complete segments. -/
theorem pollCycle_some (f : List Char) (st : PollState)
    (hoff : st.offset ≤ f.length) (hrem : '\n' ∉ st.remainder) :
    pollCycle (some f) st =
      ({ offset := f.length,
         remainder :=
           (splitComplete (st.remainder ++ f.drop st.offset)).2,
         nextMessageId :=
           (processLines
             (splitComplete (st.remainder ++ f.drop st.offset)).1
             st.nextMessageId).2.2 },
       (processLines
         (splitComplete (st.remainder ++ f.drop st.offset)).1
         st.nextMessageId).1,
       (processLines
         (splitComplete (st.remainder ++ f.drop st.offset)).1
         st.nextMessageId).2.1) := by
  simp only [pollCycle]
  rw [readChunk_no_shrink f st.offset hoff]
  by_cases hchunk : (f.drop st.offset).isEmpty
  · have he : f.drop st.offset = [] := by
      simpa [List.isEmpty_iff] using hchunk
    rw [he]
    simp [splitComplete_of_noNl st.remainder hrem, processLines]
  · simp [hchunk]

theorem pollCycle_extend (f ext : List Char) (st : PollState)
    (hoff : st.offset ≤ f.length) (hrem : '\n' ∉ st.remainder) :
    pollCycle (some (f ++ ext)) st =
      ((pollCycle (some (f ++ ext)) (pollCycle (some f) st).1).1,
       (pollCycle (some f) st).2.1 ++
         (pollCycle (some (f ++ ext)) (pollCycle (some f) st).1).2.1,
       (pollCycle (some f) st).2.2 ++
         (pollCycle (some (f ++ ext)) (pollCycle (some f) st).1).2.2) := by
  have hoff2 : st.offset ≤ (f ++ ext).length := by
    simp only [List.length_append]
    omega
  have h1 := pollCycle_some f st hoff hrem
  set S1 := splitComplete (st.remainder ++ f.drop st.offset) with hS1
  have hrem1 : '\n' ∉ S1.2 := splitComplete_snd_noNl _
  have hoffm : f.length ≤ (f ++ ext).length := by
    simp only [List.length_append]
    omega
  have h2 := pollCycle_some (f ++ ext)
    { offset := f.length, remainder := S1.2,
      nextMessageId := (processLines S1.1 st.nextMessageId).2.2 }
    hoffm hrem1
  have h3 := pollCycle_some (f ++ ext) st hoff2 hrem
  rw [h1, h3]
  rw [h2]
  have hdropm : (f ++ ext).drop f.length = ext := List.drop_left f ext
  have hdrop : (f ++ ext).drop st.offset = f.drop st.offset ++ ext :=
    List.drop_append_of_le_length hoff
  rw [hdropm, hdrop]
  have hassoc : st.remainder ++ (f.drop st.offset ++ ext) =
      (st.remainder ++ f.drop st.offset) ++ ext :=
    (List.append_assoc _ _ _).symm
  rw [hassoc]
  rw [splitComplete_append (st.remainder ++ f.drop st.offset) ext]
  rw [← hS1]
  rw [processLines_append S1.1
    (splitComplete (S1.2 ++ ext)).1 st.nextMessageId]

theorem chainExtends_getLastD {g : List Char} {gs : List (List Char)}
    (h : chainExtends g gs) : ∃ e, gs.getLastD g = g ++ e := by
  induction gs generalizing g with
  | nil => exact ⟨[], by simp⟩
  | cons g2 gs2 ih =>
    obtain ⟨⟨e1, he1⟩, hrest⟩ := h
    obtain ⟨e2, he2⟩ := ih hrest
    refine ⟨e1 ++ e2, ?_⟩
    rw [List.getLastD_cons, he2, he1, List.append_assoc]

/-- Polling an append-only file over several cycles yields exactly the
messages, warnings and final state that a single read of the final
contents from the starting state would yield: in order, nothing
duplicated, nothing reordered. -/
theorem runCycles_eq_batch (fs : List (List Char)) (f : List Char)
    (st : PollState) (hoff : st.offset ≤ f.length)
    (hrem : '\n' ∉ st.remainder) (hchain : chainExtends f fs) :
    runCycles ((f :: fs).map some) st =
      pollCycle (some (fs.getLastD f)) st := by
  induction fs generalizing f st with
  | nil =>
    simp only [List.map_cons, List.map_nil, runCycles, List.getLastD]
    simp
  | cons g gs ih =>
    obtain ⟨⟨e1, he1⟩, hrest⟩ := hchain
    have hst1 := pollCycle_some f st hoff hrem
    have hoff1 : (pollCycle (some f) st).1.offset ≤ g.length := by
      rw [hst1, he1]
      simp only [List.length_append]
      omega
    have hrem1 : '\n' ∉ (pollCycle (some f) st).1.remainder := by
      rw [hst1]
      exact splitComplete_snd_noNl _
    have hih := ih g (pollCycle (some f) st).1 hoff1 hrem1 hrest
    obtain ⟨elast, helast⟩ := chainExtends_getLastD hrest
    have hext := pollCycle_extend f (e1 ++ elast) st hoff hrem
    have hfinal : (g :: gs).getLastD f = f ++ (e1 ++ elast) := by
      rw [List.getLastD_cons, helast, he1, List.append_assoc]
    show (let r1 := pollCycle (some f) st
          let r2 := runCycles ((g :: gs).map some) r1.1
          (r2.1, r1.2.1 ++ r2.2.1, r1.2.2 ++ r2.2.2)) = _
    simp only
    rw [show ((g :: gs).map some) = (g :: gs).map some from rfl]
    rw [hih, hfinal, hext]
    rw [show gs.getLastD g = f ++ (e1 ++ elast) from by
      rw [helast, he1, List.append_assoc]]

/-! ## Service lemmas -/

theorem get_thread_some {w : World} {chat tid : Int}
    {s : TopicThreadSnapshot} (h : get_thread w chat tid = some s) :
    s.chat_id = chat ∧ s.thread_id = tid := by
  have := List.find?_some h
  simpa using this

theorem get_thread_delete (w : World) (chat tid : Int) :
    get_thread (delete_thread w chat tid) chat tid = none := by
  unfold get_thread delete_thread
  rw [List.find?_eq_none]
  intro x hx
  simp only [List.mem_filter, decide_not, Bool.not_eq_eq_eq_not,
    Bool.not_true, decide_eq_false_iff_not] at hx
  simp only [decide_eq_true_eq]
  exact hx.2

theorem get_thread_set_context_none {w : World} {chat2 tid2 : Int}
    (chat tid : Int) (ctx : RunContext) (title : String)
    (h : get_thread w chat2 tid2 = none)
    (hne : ¬ (chat2 = chat ∧ tid2 = tid)) :
    get_thread (set_context w chat tid ctx title) chat2 tid2 = none := by
  unfold get_thread at h ⊢
  rw [List.find?_eq_none] at h
  unfold set_context
  by_cases hex : (get_thread w chat tid).isSome
  · rw [if_pos hex]
    rw [List.find?_eq_none]
    intro x hx
    simp only [List.mem_map] at hx
    obtain ⟨x0, hx0, hfx⟩ := hx
    have hx0' := h x0 hx0
    simp only [decide_eq_true_eq] at hx0' ⊢
    intro hcontra
    apply hx0'
    by_cases hmatch : x0.chat_id = chat ∧ x0.thread_id = tid
    · rw [if_pos hmatch] at hfx
      rw [← hfx] at hcontra
      exact ⟨hcontra.1, hcontra.2⟩
    · rw [if_neg hmatch] at hfx
      rw [← hfx] at hcontra
      exact hcontra
  · rw [if_neg hex]
    rw [List.find?_eq_none]
    intro x hx
    simp only [List.mem_cons] at hx
    rcases hx with rfl | hx
    · simp only [decide_eq_true_eq]
      intro hcontra
      exact hne ⟨hcontra.1.symm, hcontra.2.symm⟩
    · exact h x hx

/-- Core of C1: with the binding persisted (`bind_state = true`), a
fresh context and a healthy platform, the first call creates (once) and
every later call reuses the same thread and leaves the world unchanged. -/
theorem ensure_idempotent_core (w : World) (chat : Int)
    (pk palias : String) (branch : Option String)
    (hok : w.createOk = true)
    (hfind : find_thread_for_context w chat
      { project := pk, branch := branch } = none)
    (hfresh : ∀ s ∈ w.store,
      ¬ (s.chat_id = chat ∧ s.thread_id = w.nextThreadId)) :
    ∃ status1 status2 : TopicStatus,
      (ensure_topic_thread w chat pk palias branch true).2 =
        .ok (status1, true) ∧
      (ensure_topic_thread (ensure_topic_thread w chat pk palias
        branch true).1 chat pk palias branch true).2 =
        .ok (status2, false) ∧
      status1.thread_id = w.nextThreadId ∧
      status2.thread_id = w.nextThreadId ∧
      (ensure_topic_thread (ensure_topic_thread w chat pk palias
        branch true).1 chat pk palias branch true).1 =
        (ensure_topic_thread w chat pk palias branch true).1 ∧
      (ensure_topic_thread w chat pk palias branch true).1.createCalls =
        w.createCalls + 1 := by
  set ctx : RunContext := { project := pk, branch := branch } with hctx
  set title := build_topic_title palias branch with htitle
  set nid := w.nextThreadId with hnid
  -- the world after the successful create
  set w' : World :=
    { w with
      topics := nid :: w.topics,
      nextThreadId := nid + 1,
      createCalls := w.createCalls + 1 } with hw'
  have hcr : create_forum_topic w = (w', some nid) := by
    unfold create_forum_topic
    rw [if_pos hok]
  have hstore' : w'.store = w.store := rfl
  -- get_thread misses in w (and hence w') for the fresh id
  have hget_w' : get_thread w' chat nid = none := by
    unfold get_thread
    rw [List.find?_eq_none]
    intro x hx
    rw [hstore'] at hx
    simpa using hfresh x hx
  set newSnap : TopicThreadSnapshot :=
    { chat_id := chat, thread_id := nid, context := some ctx,
      sessions := [], topic_title := some title,
      default_engine := none } with hnewSnap
  set w1 : World := { w' with store := newSnap :: w.store } with hw1
  have hset : set_context w' chat nid ctx title = w1 := by
    unfold set_context
    rw [hget_w']
    rfl
  have hget_w1 : get_thread w1 chat nid = some newSnap := by
    unfold get_thread
    rw [hw1]
    show List.find? _ (newSnap :: w.store) = _
    rw [List.find?_cons_of_pos]
    try simp [hnewSnap]
  have hr1 : ensure_topic_thread w chat pk palias branch true =
      (w1, .ok (snapshot_to_status newSnap [(pk, palias)], true)) := by
    simp only [ensure_topic_thread, createTopicTail]
    rw [hfind, hcr]
    simp only [if_true]
    rw [hset, hget_w1]
  -- second call: lookup now hits, rename succeeds, set_context is a no-op
  have hfind2 : find_thread_for_context w1 chat ctx = some nid := by
    unfold find_thread_for_context
    rw [hw1]
    show (match List.find? _ (newSnap :: w.store) with
      | some s => some s.thread_id
      | none => none) = _
    rw [List.find?_cons_of_pos]
    simp [hnewSnap]
  have hedit2 : edit_forum_topic w1 nid = true := by
    unfold edit_forum_topic
    simp only [decide_eq_true_eq]
    show nid ∈ nid :: w.topics
    simp
  have hset2 : set_context w1 chat nid ctx title = w1 := by
    unfold set_context
    rw [hget_w1]
    simp only [Option.isSome_some, if_pos rfl]
    have hmap : w1.store.map (fun s =>
        if s.chat_id = chat ∧ s.thread_id = nid then
          { s with context := some ctx, topic_title := some title }
        else s) = w1.store := by
      rw [hw1]
      show List.map _ (newSnap :: w.store) = _
      rw [List.map_cons]
      congr 1
      · rw [if_pos (by simp [hnewSnap])]
      · conv_rhs => rw [← List.map_id w.store]
        apply List.map_congr_left
        intro s hs
        rw [if_neg (hfresh s hs)]
        rfl
    rw [hmap]
    simp only [if_true]
  have hr2 : ensure_topic_thread w1 chat pk palias branch true =
      (w1, .ok (snapshot_to_status newSnap [(pk, palias)], false)) := by
    simp only [ensure_topic_thread]
    rw [hfind2]
    dsimp only
    rw [hedit2]
    simp only [if_true, if_pos rfl]
    rw [hset2, hget_w1]
  refine ⟨snapshot_to_status newSnap [(pk, palias)],
    snapshot_to_status newSnap [(pk, palias)], ?_, ?_, ?_, ?_, ?_, ?_⟩
  · rw [hr1]
  · rw [hr1, hr2]
  · simp [snapshot_to_status, hnewSnap]
  · simp [snapshot_to_status, hnewSnap]
  · rw [hr1, hr2]
  · rw [hr1]

theorem create_forum_topic_ok (w : World) (hok : w.createOk = true) :
    create_forum_topic w = (created_world w, some w.nextThreadId) := by
  unfold created_world create_forum_topic
  rw [if_pos hok]

theorem created_world_store (w : World) (hok : w.createOk = true) :
    (created_world w).store = w.store := by
  unfold created_world create_forum_topic
  rw [if_pos hok]

/-- What the creation tail produces on a healthy platform: a
`created=True` outcome whose status carries the fresh thread id, with
the binding persisted exactly when `bind_state` is set. -/
theorem createTopicTail_spec (w : World) (chat : Int)
    (pk palias : String) (ctx : RunContext) (title : String)
    (bind_state : Bool) (hok : w.createOk = true) :
    ∃ status : TopicStatus,
      createTopicTail w chat pk palias ctx title bind_state =
        ((if bind_state then
            set_context (created_world w) chat w.nextThreadId ctx title
          else created_world w), .ok (status, true)) ∧
      status.thread_id = w.nextThreadId := by
  simp only [createTopicTail]
  rw [create_forum_topic_ok w hok]
  dsimp only
  set w1 := if bind_state then
    set_context (created_world w) chat w.nextThreadId ctx title
    else created_world w with hw1
  cases hsnap : get_thread w1 chat w.nextThreadId with
  | some s =>
    refine ⟨snapshot_to_status s [(pk, palias)], ?_, ?_⟩
    · dsimp only
    · have := (get_thread_some hsnap).2
      simp [snapshot_to_status, this]
  | none =>
    refine ⟨snapshot_to_status
      (fallback_snapshot chat w.nextThreadId ctx bind_state title)
      [(pk, palias)], ?_, ?_⟩
    · dsimp only
    · simp [snapshot_to_status, fallback_snapshot]

/-- Core of C3: a bound thread whose external topic is gone (rename
fails) is deleted locally and replaced by a freshly created topic; the
returned status carries the new id and the old binding is gone. -/
theorem ensure_drift_core (w : World) (chat : Int) (pk palias : String)
    (branch : Option String) (bind_state : Bool) (oldT : Int)
    (hfind : find_thread_for_context w chat
      { project := pk, branch := branch } = some oldT)
    (hdrift : oldT ∉ w.topics)
    (hok : w.createOk = true)
    (hne : w.nextThreadId ≠ oldT) :
    ∃ status : TopicStatus,
      (ensure_topic_thread w chat pk palias branch bind_state).2 =
        .ok (status, true) ∧
      status.thread_id = w.nextThreadId ∧
      status.thread_id ≠ oldT ∧
      get_thread
        (ensure_topic_thread w chat pk palias branch bind_state).1
        chat oldT = none := by
  have hedit : edit_forum_topic w oldT = false := by
    unfold edit_forum_topic
    simp [hdrift]
  set wd := delete_thread w chat oldT with hwd
  have hokd : wd.createOk = true := hok
  have hnidd : wd.nextThreadId = w.nextThreadId := rfl
  obtain ⟨status, hct, hid⟩ := createTopicTail_spec wd chat pk palias
    { project := pk, branch := branch }
    (build_topic_title palias branch) bind_state hokd
  have hr : ensure_topic_thread w chat pk palias branch bind_state =
      ((if bind_state then
          set_context (created_world wd) chat wd.nextThreadId
            { project := pk, branch := branch }
            (build_topic_title palias branch)
        else created_world wd), .ok (status, true)) := by
    simp only [ensure_topic_thread]
    rw [hfind]
    dsimp only
    rw [hedit]
    simp only [Bool.false_eq_true, if_false]
    rw [← hwd, hct]
  have hget_wd : get_thread wd chat oldT = none := by
    rw [hwd]
    exact get_thread_delete w chat oldT
  have hget_cw : get_thread (created_world wd) chat oldT = none := by
    unfold get_thread at hget_wd ⊢
    rw [created_world_store wd hokd]
    exact hget_wd
  refine ⟨status, ?_, ?_, ?_, ?_⟩
  · rw [hr]
  · rw [hid, hnidd]
  · rw [hid, hnidd]
    exact hne
  · rw [hr]
    cases bind_state with
    | false =>
      simpa using hget_cw
    | true =>
      simp only [if_true]
      exact get_thread_set_context_none chat wd.nextThreadId _ _ hget_cw
        (by
          intro hcontra
          exact hne (by rw [← hnidd, hcontra.2]))

/-- Core of C10, create path with `bind_state = false` and a store that
has no snapshot for the fresh thread: the call succeeds with
`created=True` for the requested context, yet the returned status has
project and branch unset. -/
theorem ensure_unbound_core (w : World) (chat : Int)
    (pk palias : String) (branch : Option String)
    (hok : w.createOk = true)
    (hfind : find_thread_for_context w chat
      { project := pk, branch := branch } = none)
    (hget : get_thread w chat w.nextThreadId = none) :
    (ensure_topic_thread w chat pk palias branch false).2 =
      .ok (snapshot_to_status
        (fallback_snapshot chat w.nextThreadId
          { project := pk, branch := branch } false
          (build_topic_title palias branch)) [(pk, palias)], true) ∧
    (snapshot_to_status
      (fallback_snapshot chat w.nextThreadId
        { project := pk, branch := branch } false
        (build_topic_title palias branch)) [(pk, palias)]).project =
      none ∧
    (snapshot_to_status
      (fallback_snapshot chat w.nextThreadId
        { project := pk, branch := branch } false
        (build_topic_title palias branch)) [(pk, palias)]).branch =
      none := by
  have hget_cw : get_thread (created_world w) chat w.nextThreadId =
      none := by
    unfold get_thread at hget ⊢
    rw [created_world_store w hok]
    exact hget
  refine ⟨?_, ?_, ?_⟩
  · simp only [ensure_topic_thread, createTopicTail]
    rw [hfind]
    dsimp only
    rw [create_forum_topic_ok w hok]
    dsimp only
    simp only [Bool.false_eq_true, if_false]
    rw [hget_cw]
  · simp [snapshot_to_status, fallback_snapshot]
  · simp [snapshot_to_status, fallback_snapshot]

/-- The other half of C10: the synthesized snapshot with
`bind_state = true` carries the requested context, so its status shows
the aliased project and the requested branch. -/
theorem fallback_bound_status (chat tid : Int) (pk palias : String)
    (branch : Option String) (title : String) :
    (snapshot_to_status
      (fallback_snapshot chat tid
        { project := pk, branch := branch } true title)
      [(pk, palias)]).project = some palias ∧
    (snapshot_to_status
      (fallback_snapshot chat tid
        { project := pk, branch := branch } true title)
      [(pk, palias)]).branch = branch := by
  constructor
  · simp only [snapshot_to_status, fallback_snapshot, if_true]
    simp [aliasLookup, List.find?_cons_of_pos]
  · simp [snapshot_to_status, fallback_snapshot]

/-! ## The rendered record contains no delimiter, and strips to itself -/

theorem hexDigit_ne_nl {n : Nat} (h : n < 16) : ¬ ('\n' = hexDigit n) := by
  revert h
  have : ∀ n < 16, ¬ ('\n' = hexDigit n) := by decide
  exact fun h => this _ h

theorem escapeChar_no_nl (c : Char) : '\n' ∉ escapeChar c := by
  unfold escapeChar
  split_ifs with h1 h2 h3 h4 h5 h6 h7 h8
  · decide
  · decide
  · decide
  · decide
  · decide
  · decide
  · decide
  · have hd : c.toNat / 16 < 16 := by omega
    have hm : c.toNat % 16 < 16 := Nat.mod_lt _ (by omega)
    simp only [List.mem_cons, List.not_mem_nil, or_false]
    push_neg
    exact ⟨by decide, by decide, by decide, by decide, hexDigit_ne_nl hd,
      hexDigit_ne_nl hm⟩
  · simp only [List.mem_singleton]
    intro he
    subst he
    exact h5 (by decide)

theorem renderChars_no_nl (cs : List Char) : '\n' ∉ renderChars cs := by
  induction cs with
  | nil => simp [renderChars]
  | cons c cs ih =>
    show '\n' ∉ escapeChar c ++ renderChars cs
    rw [List.mem_append]
    push_neg
    exact ⟨escapeChar_no_nl c, ih⟩

theorem renderString_no_nl (s : String) : '\n' ∉ renderString s := by
  intro h
  unfold renderString at h
  rcases List.mem_append.mp h with h2 | h3
  · rcases List.mem_cons.mp h2 with he | h4
    · exact absurd he (by decide)
    · exact renderChars_no_nl s.data h4
  · exact absurd (List.mem_singleton.mp h3) (by decide)

theorem renderNat_no_nl (n : Nat) : '\n' ∉ renderNat n := by
  intro h
  have := renderNat_all_digits n _ h
  exact absurd this (by decide)

theorem renderInt_no_nl (n : Int) : '\n' ∉ renderInt n := by
  unfold renderInt
  split
  · rw [List.mem_cons]
    push_neg
    exact ⟨by decide, renderNat_no_nl _⟩
  · exact renderNat_no_nl _

theorem renderJVal_no_nl (v : JVal) : '\n' ∉ renderJVal v := by
  cases v with
  | null => decide
  | int n => exact renderInt_no_nl n
  | str s => exact renderString_no_nl s

theorem renderField_no_nl (kv : String × JVal) :
    '\n' ∉ renderField kv := by
  obtain ⟨k, v⟩ := kv
  show '\n' ∉ renderString k ++ ':' :: renderJVal v
  rw [List.mem_append, List.mem_cons]
  push_neg
  exact ⟨renderString_no_nl k, by decide, renderJVal_no_nl v⟩

theorem renderFields_no_nl (obj : JObj) : '\n' ∉ renderFields obj := by
  induction obj with
  | nil => simp [renderFields]
  | cons kv tl ih =>
    cases tl with
    | nil => exact renderField_no_nl kv
    | cons kv2 tl2 =>
      show '\n' ∉ renderField kv ++ ',' :: renderFields (kv2 :: tl2)
      rw [List.mem_append, List.mem_cons]
      push_neg
      exact ⟨renderField_no_nl kv, by decide, ih⟩

/-- A serialized record never contains the record delimiter: every
control character (including `\n`) is escaped by the encoder. -/
theorem encodeEnvelopeChars_no_nl (e : SwarmEnvelope) :
    '\n' ∉ encodeEnvelopeChars e := by
  intro h
  unfold encodeEnvelopeChars renderLine at h
  rcases List.mem_append.mp h with h2 | h3
  · rcases List.mem_cons.mp h2 with he | h4
    · exact absurd he (by decide)
    · exact renderFields_no_nl _ h4
  · exact absurd (List.mem_singleton.mp h3) (by decide)

theorem stripChars_brace (xs : List Char) :
    stripChars ((lbrace :: xs) ++ [rbrace]) =
      (lbrace :: xs) ++ [rbrace] := by
  have h1 : isPyWs lbrace = false := by decide
  have h2 : isPyWs rbrace = false := by decide
  unfold stripChars
  rw [List.cons_append]
  rw [show List.dropWhile isPyWs (lbrace :: (xs ++ [rbrace])) =
      lbrace :: (xs ++ [rbrace]) from by
    simp [List.dropWhile_cons, h1]]
  rw [show (lbrace :: (xs ++ [rbrace]) : List Char).reverse =
      rbrace :: (xs.reverse ++ [lbrace]) from by simp]
  rw [show List.dropWhile isPyWs (rbrace :: (xs.reverse ++ [lbrace])) =
      rbrace :: (xs.reverse ++ [lbrace]) from by
    simp [List.dropWhile_cons, h2]]
  simp

/-- Stripping whitespace from a serialized record is the identity: it
opens with `{` and closes with `}`. -/
theorem stripChars_encode (e : SwarmEnvelope) :
    stripChars (encodeEnvelopeChars e) = encodeEnvelopeChars e := by
  show stripChars ((lbrace :: renderFields (encodeEnvelope e)) ++
    [rbrace]) = _
  exact stripChars_brace _

/-- One complete, well-formed trigger line at the head of the segment
list: it is decoded, translated, yielded with the current id, and the id
decrements for the rest. -/
theorem processLines_cons_ok (e : SwarmEnvelope)
    (rest : List (List Char)) (nid : Int)
    (htrig : e.intent = .trigger)
    (htext : (stripChars e.text.data).isEmpty = false) :
    processLines (encodeEnvelopeChars e :: rest) nid =
      (syntheticMessage e nid :: (processLines rest (nid - 1)).1,
       (processLines rest (nid - 1)).2.1,
       (processLines rest (nid - 1)).2.2) := by
  have hstrip := stripChars_encode e
  have hne : (stripChars (encodeEnvelopeChars e)).isEmpty = false := by
    rw [hstrip]
    rfl
  have hdec : decodeChars (stripChars (encodeEnvelopeChars e)) =
      some e := by
    rw [hstrip]
    exact decodeChars_encodeEnvelopeChars e
  have hsynth : toSyntheticMessage e nid =
      some (syntheticMessage e nid) := by
    unfold toSyntheticMessage
    rw [htrig]
    simp [htext]
  simp [processLines, hne, hdec, hsynth]

theorem descFrom_append (n : Int) (k1 k2 : Nat) :
    descFrom n k1 ++ descFrom (n - k1) k2 = descFrom n (k1 + k2) := by
  induction k1 generalizing n with
  | zero => simp [descFrom]
  | succ k ih =>
    have hshift : n - (k + 1 : Nat) = (n - 1) - (k : Nat) := by
      push_cast
      omega
    show n :: descFrom (n - 1) k ++ descFrom (n - (k + 1 : Nat)) k2 =
      descFrom n (k + 1 + k2)
    rw [hshift]
    have : k + 1 + k2 = (k + k2) + 1 := by omega
    rw [this]
    show n :: (descFrom (n - 1) k ++ descFrom ((n - 1) - (k : Nat)) k2) =
      n :: descFrom (n - 1) (k + k2)
    rw [ih (n - 1)]

theorem pollCycle_ids (f : Option (List Char)) (st : PollState) :
    (pollCycle f st).2.1.map (fun m => m.message_id) =
      descFrom st.nextMessageId (pollCycle f st).2.1.length ∧
    (pollCycle f st).1.nextMessageId =
      st.nextMessageId - (pollCycle f st).2.1.length := by
  cases f with
  | none => simp [pollCycle, descFrom]
  | some f =>
    simp only [pollCycle]
    by_cases h : ((readChunk f st.offset).1).isEmpty
    · simp [h, descFrom]
    · simp only [h, Bool.false_eq_true, if_false]
      exact ⟨processLines_ids _ _, processLines_nid _ _⟩

theorem runCycles_ids (fs : List (Option (List Char)))
    (st : PollState) :
    (runCycles fs st).2.1.map (fun m => m.message_id) =
      descFrom st.nextMessageId (runCycles fs st).2.1.length ∧
    (runCycles fs st).1.nextMessageId =
      st.nextMessageId - (runCycles fs st).2.1.length := by
  induction fs generalizing st with
  | nil => simp [runCycles, descFrom]
  | cons f fs ih =>
    obtain ⟨hm1, hn1⟩ := pollCycle_ids f st
    obtain ⟨hm2, hn2⟩ := ih (pollCycle f st).1
    simp only [runCycles, List.map_append, List.length_append]
    constructor
    · rw [hm1, hm2, hn1, descFrom_append]
    · rw [hn2, hn1]
      push_cast
      omega

/-- A segment that fails to decode is warned about and skipped; the
rest of the stream and its id bookkeeping are untouched. -/
theorem processLines_bad (bad : List Char) (rest : List (List Char))
    (nid : Int) (hfail : decodeChars (stripChars bad) = none)
    (hne : (stripChars bad).isEmpty = false) :
    processLines (bad :: rest) nid =
      ((processLines rest nid).1,
       .decodeFailed :: (processLines rest nid).2.1,
       (processLines rest nid).2.2) := by
  simp [processLines, hne, hfail]

/-- A blank or whitespace-only segment is skipped with no log entry. -/
theorem processLines_blank (blank : List Char)
    (rest : List (List Char)) (nid : Int)
    (hblank : (stripChars blank).isEmpty = true) :
    processLines (blank :: rest) nid = processLines rest nid := by
  simp [processLines, hblank]

/-- A parsed line whose object carries a field outside the known schema
fails to decode at the character level too. -/
theorem decodeChars_unknown_field (l : List Char) (obj : JObj)
    (rem : List Char) (kv : String × JVal)
    (hparse : parseLine l = some (obj, rem)) (hmem : kv ∈ obj)
    (hk : kv.1 ∉ knownFields) : decodeChars l = none := by
  unfold decodeChars
  rw [hparse]
  by_cases h : (skipWs rem).isEmpty
  · simp only [h, if_true]
    exact decodeObj_unknown_field obj kv hmem hk
  · simp [h]

/-! ## Claim theorems -/

/-- C4: a `control`-intent record is never translated into a synthetic
message; a `trigger`-intent record with non-whitespace text is
translated into a message carrying the envelope's chat id, thread id,
text and origin-agent label, with `ingress_source = "swarm"`,
`ingress_intent = "trigger"` and the current (negative) synthetic id;
the ids across the messages yielded by one stream start at −1 and are
strictly decreasing; a trigger record with whitespace-only text is
dropped without error. -/
theorem claim_C4_translator :
    (∀ (e : SwarmEnvelope) (nid : Int), e.intent = .control →
      toSyntheticMessage e nid = none) ∧
    (∀ (e : SwarmEnvelope) (nid : Int), e.intent = .trigger →
      (stripChars e.text.data).isEmpty = false →
      toSyntheticMessage e nid = some (syntheticMessage e nid) ∧
      (syntheticMessage e nid).chat_id = e.chat_id ∧
      (syntheticMessage e nid).thread_id = e.thread_id ∧
      (syntheticMessage e nid).text = e.text ∧
      (syntheticMessage e nid).origin_agent = e.origin_agent ∧
      (syntheticMessage e nid).ingress_source = sSwarm ∧
      (syntheticMessage e nid).ingress_intent = sTrigger ∧
      (syntheticMessage e nid).message_id = nid) ∧
    (∀ (e : SwarmEnvelope) (nid : Int), e.intent = .trigger →
      (stripChars e.text.data).isEmpty = true →
      toSyntheticMessage e nid = none) ∧
    (∀ (fs : List (Option (List Char))),
      (runCycles fs initPollState).2.1.map (fun m => m.message_id) =
        descFrom (-1) (runCycles fs initPollState).2.1.length ∧
      List.Pairwise (fun a b => b < a)
        ((runCycles fs initPollState).2.1.map
          (fun m => m.message_id)) ∧
      (∀ x ∈ (runCycles fs initPollState).2.1.map
        (fun m => m.message_id), x < 0)) := by
  refine ⟨?_, ?_, ?_, ?_⟩
  · intro e nid h
    simp [toSyntheticMessage, h]
  · intro e nid h htext
    refine ⟨?_, rfl, rfl, rfl, rfl, rfl, ?_, rfl⟩
    · simp [toSyntheticMessage, h, htext]
    · simp [syntheticMessage, h, SwarmIntent.toStr]
  · intro e nid h htext
    simp [toSyntheticMessage, h, htext]
  · intro fs
    have hids := (runCycles_ids fs initPollState).1
    have hinit : initPollState.nextMessageId = -1 := rfl
    rw [hinit] at hids
    refine ⟨hids, ?_, ?_⟩
    · rw [hids]
      exact descFrom_pairwise _ _
    · intro x hx
      rw [hids] at hx
      have := descFrom_le (-1) _ x hx
      omega

/-- C5: against an append-only file, running the poll loop over the
successive file contents yields the same messages, warnings and final
state as one batch read of the final contents: records come in file
order, nothing is reordered or duplicated; and each cycle advances the
stored offset by exactly the number of characters read. -/
theorem claim_C5_append_only (fs : List (List Char)) (f : List Char)
    (hchain : chainExtends f fs) :
    runCycles ((f :: fs).map some) initPollState =
      pollCycle (some (fs.getLastD f)) initPollState ∧
    ∀ (g : List Char) (st : PollState), st.offset ≤ g.length →
      (pollCycle (some g) st).1.offset =
        st.offset + ((readChunk g st.offset).1).length := by
  constructor
  · exact runCycles_eq_batch fs f initPollState (by simp [initPollState])
      (by simp [initPollState]) hchain
  · intro g st hoff
    simp only [pollCycle]
    rw [readChunk_no_shrink g st.offset hoff]
    by_cases h : (g.drop st.offset).isEmpty
    · simp only [h, if_true]
      simp [List.length_drop]
      omega
    · simp only [h, Bool.false_eq_true, if_false]
      simp [List.length_drop]
      omega

/-- C6: a parsed line carrying any field outside the schema's known set
fails to decode; a segment that fails to decode produces one warning
log and is skipped, leaving the messages, ids and processing of every
later segment unchanged; a blank segment is skipped with no log at
all; and a cycle's offset and fragment bookkeeping are a function of
the bytes alone (final offset is the file length, the fragment is the
split remainder), untouched by decode failures. -/
theorem claim_C6_malformed_records :
    (∀ (l : List Char) (obj : JObj) (rem : List Char)
      (kv : String × JVal),
      parseLine l = some (obj, rem) → kv ∈ obj →
      kv.1 ∉ knownFields → decodeChars l = none) ∧
    (∀ (bad : List Char) (rest : List (List Char)) (nid : Int),
      decodeChars (stripChars bad) = none →
      (stripChars bad).isEmpty = false →
      processLines (bad :: rest) nid =
        ((processLines rest nid).1,
         .decodeFailed :: (processLines rest nid).2.1,
         (processLines rest nid).2.2)) ∧
    (∀ (blank : List Char) (rest : List (List Char)) (nid : Int),
      (stripChars blank).isEmpty = true →
      processLines (blank :: rest) nid = processLines rest nid) ∧
    (∀ (f : List Char) (st : PollState), st.offset ≤ f.length →
      '\n' ∉ st.remainder →
      (pollCycle (some f) st).1.offset = f.length ∧
      (pollCycle (some f) st).1.remainder =
        (splitComplete (st.remainder ++ f.drop st.offset)).2) := by
  refine ⟨decodeChars_unknown_field, processLines_bad,
    processLines_blank, ?_⟩
  intro f st hoff hrem
  rw [pollCycle_some f st hoff hrem]
  exact ⟨rfl, rfl⟩

/-- C7: polling a missing file never raises: the cycle resets the
offset and pending fragment to their initial values, yields no message
and no warning, and the loop continues (records of a later-created file
are picked up from offset 0). -/
theorem claim_C7_missing_file (st : PollState) :
    pollCycle none st =
      ({ offset := 0, remainder := [],
         nextMessageId := st.nextMessageId }, [], []) := rfl

/-- C8: decoding the serialized bytes of any well-typed envelope of the
current schema returns an envelope equal to the original
(`decode(encode(envelope)) == envelope`). -/
theorem claim_C8_round_trip (e : SwarmEnvelope) :
    decodeChars (encodeEnvelopeChars e) = some e :=
  decodeChars_encodeEnvelopeChars e

/-- C9: when the file is smaller than the stored offset, `_read_chunk`
resets the offset to 0 and returns the whole file with the new offset
equal to the file length; the poll loop keeps the pending fragment, so
the fragment is prepended to the re-read bytes of the shrunken file. -/
theorem claim_C9_shrunken_file (f : List Char) (st : PollState)
    (h : f.length < st.offset) :
    readChunk f st.offset = (f, f.length) ∧
    (f.isEmpty = false →
      pollCycle (some f) st =
        ({ offset := f.length,
           remainder := (splitComplete (st.remainder ++ f)).2,
           nextMessageId :=
             (processLines (splitComplete (st.remainder ++ f)).1
               st.nextMessageId).2.2 },
         (processLines (splitComplete (st.remainder ++ f)).1
           st.nextMessageId).1,
         (processLines (splitComplete (st.remainder ++ f)).1
           st.nextMessageId).2.1)) := by
  refine ⟨readChunk_shrink f st.offset h, ?_⟩
  intro hne
  simp only [pollCycle]
  rw [readChunk_shrink f st.offset h]
  simp only [hne, Bool.false_eq_true, if_false]

/-- C2 (counterexample): at this concrete input the stream yields the
messages for A, then B, then C — not "exactly A then C" as the claim
states: B, a valid trigger record whose bytes complete in the second
append, is yielded as well. -/
theorem claim_C2_counterexample :
    (runCycles [some fileC2a, some fileC2b] initPollState).2.1 =
      [syntheticMessage envA (-1), syntheticMessage envB (-2),
       syntheticMessage envC (-3)] ∧
    (runCycles [some fileC2a, some fileC2b] initPollState).2.1 ≠
      [syntheticMessage envA (-1), syntheticMessage envC (-2)] := by
  constructor
  · decide
  · decide

/-- C2 (amended): with A, B and C valid trigger envelopes with
non-whitespace text, the two-cycle run yields exactly the messages for
A, then B, then C in order once B's bytes are complete; and as long as
B's record is incomplete (the first file contents alone), only A's
message is yielded — B is never yielded while incomplete. -/
theorem claim_C2_amended (A B C : SwarmEnvelope) (k : Nat)
    (hA : A.intent = .trigger)
    (hAt : (stripChars A.text.data).isEmpty = false)
    (hB : B.intent = .trigger)
    (hBt : (stripChars B.text.data).isEmpty = false)
    (hC : C.intent = .trigger)
    (hCt : (stripChars C.text.data).isEmpty = false) :
    (runCycles
      [some (encodeEnvelopeChars A ++ '\n' ::
        (encodeEnvelopeChars B).take k),
       some ((encodeEnvelopeChars A ++ '\n' ::
        (encodeEnvelopeChars B).take k) ++
         ((encodeEnvelopeChars B).drop k ++ '\n' ::
          (encodeEnvelopeChars C ++ ['\n'])))]
      initPollState).2.1 =
      [syntheticMessage A (-1), syntheticMessage B (-2),
       syntheticMessage C (-3)] ∧
    (pollCycle (some (encodeEnvelopeChars A ++ '\n' ::
      (encodeEnvelopeChars B).take k)) initPollState).2.1 =
      [syntheticMessage A (-1)] := by
  have noA := encodeEnvelopeChars_no_nl A
  have noB := encodeEnvelopeChars_no_nl B
  have noC := encodeEnvelopeChars_no_nl C
  have noPartB : '\n' ∉ (encodeEnvelopeChars B).take k :=
    fun h => noB (List.take_subset k _ h)
  set encA := encodeEnvelopeChars A with hencA
  set encB := encodeEnvelopeChars B with hencB
  set encC := encodeEnvelopeChars C with hencC
  set f1 := encA ++ '\n' :: encB.take k with hf1
  set ext := encB.drop k ++ '\n' :: (encC ++ ['\n']) with hext
  have key1 : splitComplete f1 = ([encA], encB.take k) := by
    rw [hf1, splitComplete_line encA _ noA,
      splitComplete_of_noNl _ noPartB]
  have key2 : processLines [encA] (-1) =
      ([syntheticMessage A (-1)], [], -2) := by
    rw [show ([encA] : List (List Char)) =
      [encodeEnvelopeChars A] from rfl]
    rw [processLines_cons_ok A [] (-1) hA hAt]
    simp [processLines]
  have hc1 : pollCycle (some f1) initPollState =
      ({ offset := f1.length, remainder := encB.take k,
         nextMessageId := -2 }, [syntheticMessage A (-1)], []) := by
    rw [pollCycle_some f1 initPollState (Nat.zero_le _)
      (by simp [initPollState])]
    simp only [show initPollState.remainder = ([] : List Char) from rfl,
      show initPollState.offset = 0 from rfl,
      show initPollState.nextMessageId = -1 from rfl,
      List.nil_append, List.drop_zero]
    rw [key1, key2]
  have key3 : splitComplete (encB.take k ++ ext) = ([encB, encC], []) := by
    rw [hext, ← List.append_assoc, List.take_append_drop]
    rw [splitComplete_line encB _ noB, splitComplete_line encC _ noC]
    simp [splitComplete]
  have key4 : processLines [encB, encC] (-2) =
      ([syntheticMessage B (-2), syntheticMessage C (-3)], [], -4) := by
    rw [show ([encB, encC] : List (List Char)) =
      encodeEnvelopeChars B :: [encodeEnvelopeChars C] from rfl]
    rw [processLines_cons_ok B [encodeEnvelopeChars C] (-2) hB hBt]
    rw [show ((-2 : Int) - 1) = -3 from by norm_num]
    rw [processLines_cons_ok C [] (-3) hC hCt]
    simp [processLines]
  have hc2 : pollCycle (some (f1 ++ ext))
      ({ offset := f1.length, remainder := encB.take k,
         nextMessageId := -2 } : PollState) =
      ({ offset := (f1 ++ ext).length, remainder := [],
         nextMessageId := -4 },
       [syntheticMessage B (-2), syntheticMessage C (-3)], []) := by
    rw [pollCycle_some (f1 ++ ext)
      ({ offset := f1.length, remainder := encB.take k,
         nextMessageId := -2 } : PollState)
      (by simp) noPartB]
    simp only [List.drop_left]
    rw [key3, key4]
  refine ⟨?_, ?_⟩
  · show (runCycles [some f1, some (f1 ++ ext)] initPollState).2.1 = _
    simp only [runCycles, hc1, hc2]
    simp
  · show (pollCycle (some f1) initPollState).2.1 = _
    rw [hc1]

/-- C1: for every chat id, project key, alias and branch, starting from
a store with no binding for the context, a healthy platform and a fresh
thread id, calling `ensure_topic_thread` twice with identical inputs
(binding persisted) returns `created=true` with thread id T, then
`created=false` with the same T; the second call leaves the world
unchanged (so every subsequent call behaves like the second), and
`create_forum_topic` is invoked exactly once across the calls. -/
theorem claim_C1_idempotent (w : World) (chat : Int)
    (pk palias : String) (branch : Option String)
    (hok : w.createOk = true)
    (hfind : find_thread_for_context w chat
      { project := pk, branch := branch } = none)
    (hfresh : ∀ s ∈ w.store,
      ¬ (s.chat_id = chat ∧ s.thread_id = w.nextThreadId)) :
    ∃ status1 status2 : TopicStatus,
      (ensure_topic_thread w chat pk palias branch true).2 =
        .ok (status1, true) ∧
      (ensure_topic_thread (ensure_topic_thread w chat pk palias
        branch true).1 chat pk palias branch true).2 =
        .ok (status2, false) ∧
      status1.thread_id = w.nextThreadId ∧
      status2.thread_id = w.nextThreadId ∧
      (ensure_topic_thread (ensure_topic_thread w chat pk palias
        branch true).1 chat pk palias branch true).1 =
        (ensure_topic_thread w chat pk palias branch true).1 ∧
      (ensure_topic_thread w chat pk palias branch true).1.createCalls =
        w.createCalls + 1 :=
  ensure_idempotent_core w chat pk palias branch hok hfind hfresh

/-- C3: when the store reports an existing thread for the context but
renaming the external topic fails, the stale binding is deleted and a
new topic is created; the returned status carries the new thread id,
not the old one, with `created=true`. -/
theorem claim_C3_drift_recreates (w : World) (chat : Int)
    (pk palias : String) (branch : Option String) (bind_state : Bool)
    (oldT : Int)
    (hfind : find_thread_for_context w chat
      { project := pk, branch := branch } = some oldT)
    (hdrift : oldT ∉ w.topics)
    (hok : w.createOk = true)
    (hne : w.nextThreadId ≠ oldT) :
    ∃ status : TopicStatus,
      (ensure_topic_thread w chat pk palias branch bind_state).2 =
        .ok (status, true) ∧
      status.thread_id = w.nextThreadId ∧
      status.thread_id ≠ oldT ∧
      get_thread
        (ensure_topic_thread w chat pk palias branch bind_state).1
        chat oldT = none :=
  ensure_drift_core w chat pk palias branch bind_state oldT hfind
    hdrift hok hne

/-- C10: with `bind_state=false` and a store with no snapshot for the
new thread, `ensure_topic_thread` succeeds with `created=true` but the
synthesized fallback snapshot carries no context, so the returned
status has project and branch unset; with `bind_state=true` the
synthesized snapshot carries the requested context (aliased project and
requested branch). -/
theorem claim_C10_unbound_status (w : World) (chat : Int)
    (pk palias : String) (branch : Option String)
    (hok : w.createOk = true)
    (hfind : find_thread_for_context w chat
      { project := pk, branch := branch } = none)
    (hget : get_thread w chat w.nextThreadId = none) :
    ((ensure_topic_thread w chat pk palias branch false).2 =
      .ok (snapshot_to_status
        (fallback_snapshot chat w.nextThreadId
          { project := pk, branch := branch } false
          (build_topic_title palias branch)) [(pk, palias)], true) ∧
     (snapshot_to_status
       (fallback_snapshot chat w.nextThreadId
         { project := pk, branch := branch } false
         (build_topic_title palias branch)) [(pk, palias)]).project =
       none ∧
     (snapshot_to_status
       (fallback_snapshot chat w.nextThreadId
         { project := pk, branch := branch } false
         (build_topic_title palias branch)) [(pk, palias)]).branch =
       none) ∧
    (∀ (tid : Int) (title : String),
      (snapshot_to_status
        (fallback_snapshot chat tid
          { project := pk, branch := branch } true title)
        [(pk, palias)]).project = some palias ∧
      (snapshot_to_status
        (fallback_snapshot chat tid
          { project := pk, branch := branch } true title)
        [(pk, palias)]).branch = branch) := by
  refine ⟨ensure_unbound_core w chat pk palias branch hok hfind hget,
    ?_⟩
  intro tid title
  exact fallback_bound_status chat tid pk palias branch title

theorem claim_C1_witness :
    ∃ status1 status2 : TopicStatus,
      (ensure_topic_thread w0 1 dProj dAlias none true).2 =
        .ok (status1, true) ∧
      (ensure_topic_thread (ensure_topic_thread w0 1 dProj dAlias
        none true).1 1 dProj dAlias none true).2 =
        .ok (status2, false) ∧
      status1.thread_id = w0.nextThreadId ∧
      status2.thread_id = w0.nextThreadId ∧
      (ensure_topic_thread (ensure_topic_thread w0 1 dProj dAlias
        none true).1 1 dProj dAlias none true).1 =
        (ensure_topic_thread w0 1 dProj dAlias none true).1 ∧
      (ensure_topic_thread w0 1 dProj dAlias none true).1.createCalls =
        w0.createCalls + 1 :=
  claim_C1_idempotent w0 1 dProj dAlias none rfl (by decide)
    (by simp [w0])

theorem claim_C2_witness :
    (runCycles
      [some (encodeEnvelopeChars envA ++ '\n' ::
        (encodeEnvelopeChars envB).take 5),
       some ((encodeEnvelopeChars envA ++ '\n' ::
        (encodeEnvelopeChars envB).take 5) ++
         ((encodeEnvelopeChars envB).drop 5 ++ '\n' ::
          (encodeEnvelopeChars envC ++ ['\n'])))]
      initPollState).2.1 =
      [syntheticMessage envA (-1), syntheticMessage envB (-2),
       syntheticMessage envC (-3)] ∧
    (pollCycle (some (encodeEnvelopeChars envA ++ '\n' ::
      (encodeEnvelopeChars envB).take 5)) initPollState).2.1 =
      [syntheticMessage envA (-1)] :=
  claim_C2_amended envA envB envC 5 rfl (by decide) rfl (by decide)
    rfl (by decide)

theorem claim_C3_witness :
    ∃ status : TopicStatus,
      (ensure_topic_thread wStale 1 dProj dAlias none true).2 =
        .ok (status, true) ∧
      status.thread_id = wStale.nextThreadId ∧
      status.thread_id ≠ 5 ∧
      get_thread
        (ensure_topic_thread wStale 1 dProj dAlias none true).1
        1 5 = none :=
  claim_C3_drift_recreates wStale 1 dProj dAlias none true 5
    (by decide) (by decide) rfl (by decide)

theorem claim_C4_witness :
    toSyntheticMessage envCtl 7 = none ∧
    toSyntheticMessage envA (-1) = some (syntheticMessage envA (-1)) ∧
    toSyntheticMessage envWs (-5) = none :=
  ⟨claim_C4_translator.1 envCtl 7 rfl,
   (claim_C4_translator.2.1 envA (-1) rfl (by decide)).1,
   claim_C4_translator.2.2.1 envWs (-5) rfl (by decide)⟩

theorem claim_C5_witness :
    runCycles ([fileW5a, fileW5b].map some) initPollState =
      pollCycle (some ([fileW5b].getLastD fileW5a)) initPollState ∧
    (pollCycle (some fileW5b) initPollState).1.offset =
      initPollState.offset +
        ((readChunk fileW5b initPollState.offset).1).length := by
  have h := claim_C5_append_only [fileW5b] fileW5a
    ⟨⟨extW5, rfl⟩, trivial⟩
  exact ⟨h.1, h.2 fileW5b initPollState (by decide)⟩

theorem claim_C6_witness :
    decodeChars badLine.data = none ∧
    processLines (oopsLine.data :: [encodeEnvelopeChars envA]) (-1) =
      ((processLines [encodeEnvelopeChars envA] (-1)).1,
       .decodeFailed ::
         (processLines [encodeEnvelopeChars envA] (-1)).2.1,
       (processLines [encodeEnvelopeChars envA] (-1)).2.2) ∧
    processLines (blankLine.data :: [encodeEnvelopeChars envA]) (-1) =
      processLines [encodeEnvelopeChars envA] (-1) ∧
    ((pollCycle (some fileW5a) initPollState).1.offset =
      fileW5a.length ∧
     (pollCycle (some fileW5a) initPollState).1.remainder =
       (splitComplete (initPollState.remainder ++
         fileW5a.drop initPollState.offset)).2) :=
  ⟨claim_C6_malformed_records.1 badLine.data objBad []
     (kExtra, .int 5) (by decide) (by decide) (by decide),
   claim_C6_malformed_records.2.1 oopsLine.data
     [encodeEnvelopeChars envA] (-1) (by decide) (by decide),
   claim_C6_malformed_records.2.2.1 blankLine.data
     [encodeEnvelopeChars envA] (-1) (by decide),
   claim_C6_malformed_records.2.2.2 fileW5a initPollState
     (by decide) (by decide)⟩

theorem claim_C9_witness :
    readChunk fW9 stW9.offset = (fW9, fW9.length) ∧
    pollCycle (some fW9) stW9 =
      ({ offset := fW9.length,
         remainder := (splitComplete (stW9.remainder ++ fW9)).2,
         nextMessageId :=
           (processLines (splitComplete (stW9.remainder ++ fW9)).1
             stW9.nextMessageId).2.2 },
       (processLines (splitComplete (stW9.remainder ++ fW9)).1
         stW9.nextMessageId).1,
       (processLines (splitComplete (stW9.remainder ++ fW9)).1
         stW9.nextMessageId).2.1) := by
  have h := claim_C9_shrunken_file fW9 stW9 (by decide)
  exact ⟨h.1, h.2 (by decide)⟩

theorem claim_C10_witness :
    ((ensure_topic_thread w0 1 dProj dAlias (some dBranch) false).2 =
      .ok (snapshot_to_status
        (fallback_snapshot 1 w0.nextThreadId
          { project := dProj, branch := some dBranch } false
          (build_topic_title dAlias (some dBranch)))
        [(dProj, dAlias)], true) ∧
     (snapshot_to_status
       (fallback_snapshot 1 w0.nextThreadId
         { project := dProj, branch := some dBranch } false
         (build_topic_title dAlias (some dBranch)))
       [(dProj, dAlias)]).project = none ∧
     (snapshot_to_status
       (fallback_snapshot 1 w0.nextThreadId
         { project := dProj, branch := some dBranch } false
         (build_topic_title dAlias (some dBranch)))
       [(dProj, dAlias)]).branch = none) ∧
    ((snapshot_to_status
        (fallback_snapshot 1 42
          { project := dProj, branch := some dBranch } true dAlias)
        [(dProj, dAlias)]).project = some dAlias ∧
      (snapshot_to_status
        (fallback_snapshot 1 42
          { project := dProj, branch := some dBranch } true dAlias)
        [(dProj, dAlias)]).branch = some dBranch) :=
  ⟨(claim_C10_unbound_status w0 1 dProj dAlias (some dBranch) rfl
      (by decide) (by decide)).1,
   (claim_C10_unbound_status w0 1 dProj dAlias (some dBranch) rfl
      (by decide) (by decide)).2 42 dAlias⟩

end Takopi
